import Mathlib

/-!
Verification of the docusign Go client library (jfcote87/docusign).

The repository contains two generations of the same library: the files
`docusign.go` / `context.go` (called "v1" below) and a revised edition whose
trailing sections appear in `recipients.go` and the unnamed source parts
(called "v2" below).  Where a claim cites both, both are embedded.

Modelling conventions:
* Go byte strings and JSON texts are modelled as `List Char`; the repository
  only ever treats them as text.
* Go maps (`textproto.MIMEHeader`, `http.Header`, `map[string]string`) are
  modelled either as association lists (when produced by a parser, in textual
  order with last-wins duplicate keys, matching `encoding/json`) or as
  functions `String → Option String` (for header state, since Go header maps
  are unordered).
* Functions of the Go standard library used by the repository
  (`encoding/json`, `mime/multipart`, `time.Parse`) are modelled from their
  documented behaviour; each such definition carries a comment saying so.
* A Go runtime panic (index out of range) is modelled as `Option.none`.
-/

set_option maxHeartbeats 1000000
set_option autoImplicit false

namespace DS

/- ## C1: the DSBool shim (docusign.go lines 36-41, identical copy in
recipients.go lines 2079-2086)

Go source:
  func (d *DSBool) UnmarshalJSON(b []byte) error {
      *d = DSBool(b[0] == 0x22 && (b[1] == 0x54 || b[1] == 0x74))
      return nil
  }
`&&` short-circuits, so `b[1]` is only read when `b[0] == '"'`; reading past
the end of `b` is a runtime panic, modelled as `none`.  The function never
returns a non-nil error. -/

/-- Model of `DSBool.UnmarshalJSON` applied to the raw JSON bytes `b`.
`none` models the index-out-of-range panic; `some v` models a normal return
(always with a nil error) storing `v`. -/
def dsboolUnmarshal : List Char → Option Bool
  | [] => none
  | [c] => if c = '"' then none else some false
  | c0 :: c1 :: _ => some (c0 = '"' && (c1 = 'T' || c1 = 't'))

/-- C1 (code_bug exhibit): the decoder looks only at the first two bytes, so
the JSON string `"tomato"` — which is neither `"true"` nor `"True"` — decodes
to `true`, contradicting both the claim and the function's own doc comment
("Unmarshals \"True\" and \"true\" as true, any other value returns false").
The literals `"true"`, `"True"`, `"false"` behave as documented. -/
theorem dsbool_unmarshal_first_two_bytes_only :
    dsboolUnmarshal "\"tomato\"".toList = some true ∧
    dsboolUnmarshal "\"true\"".toList = some true ∧
    dsboolUnmarshal "\"True\"".toList = some true ∧
    dsboolUnmarshal "\"false\"".toList = some false := by
  refine ⟨rfl, rfl, rfl, rfl⟩

/- ## Character utilities

Shared by the models of `encoding/json`, `mime/multipart` and `time.Parse`. -/

/-- The decimal digit character for `n < 10` (`'0'` as a junk value above). -/
def digitChar : Nat → Char
  | 0 => '0' | 1 => '1' | 2 => '2' | 3 => '3' | 4 => '4'
  | 5 => '5' | 6 => '6' | 7 => '7' | 8 => '8' | 9 => '9'
  | _ => '0'

/-- Numeric value of a decimal digit character. -/
def digitVal (c : Char) : Nat := c.toNat - 48

/-- Is `c` one of `'0'..'9'`? -/
def isDigitCh (c : Char) : Bool := 48 ≤ c.toNat && c.toNat ≤ 57

/-- Lowercase hexadecimal digit character for `n < 16`. -/
def hexChar : Nat → Char
  | 0 => '0' | 1 => '1' | 2 => '2' | 3 => '3' | 4 => '4'
  | 5 => '5' | 6 => '6' | 7 => '7' | 8 => '8' | 9 => '9'
  | 10 => 'a' | 11 => 'b' | 12 => 'c' | 13 => 'd' | 14 => 'e' | 15 => 'f'
  | _ => '0'

/-- Value of a hexadecimal digit character (upper or lower case). -/
def hexVal (c : Char) : Option Nat :=
  if 48 ≤ c.toNat && c.toNat ≤ 57 then some (c.toNat - 48)
  else if 97 ≤ c.toNat && c.toNat ≤ 102 then some (c.toNat - 87)
  else if 65 ≤ c.toNat && c.toNat ≤ 70 then some (c.toNat - 55)
  else none

theorem digitVal_digitChar {n : Nat} (h : n < 10) : digitVal (digitChar n) = n := by
  interval_cases n <;> rfl

theorem isDigitCh_digitChar {n : Nat} (h : n < 10) : isDigitCh (digitChar n) = true := by
  interval_cases n <;> rfl

theorem hexVal_hexChar {n : Nat} (h : n < 16) : hexVal (hexChar n) = some n := by
  interval_cases n <;> rfl

/-- Decimal digit string of `n`, most significant digit first (the digits
`encoding/json` writes for a non-negative integer). -/
def natToChars (n : Nat) : List Char :=
  if h : n < 10 then [digitChar n]
  else natToChars (n / 10) ++ [digitChar (n % 10)]
  decreasing_by exact Nat.div_lt_self (by omega) (by omega)

theorem natToChars_all_digits (n : Nat) : ∀ c ∈ natToChars n, isDigitCh c = true := by
  induction n using Nat.strong_induction_on with
  | _ n ih =>
    rw [natToChars]
    split
    · intro c hc
      rcases List.mem_singleton.mp hc with rfl
      exact isDigitCh_digitChar (by omega)
    · intro c hc
      rcases List.mem_append.mp hc with h1 | h2
      · exact ih (n / 10) (Nat.div_lt_self (by omega) (by omega)) c h1
      · rcases List.mem_singleton.mp h2 with rfl
        exact isDigitCh_digitChar (Nat.mod_lt _ (by omega))

theorem natToChars_ne_nil (n : Nat) : natToChars n ≠ [] := by
  rw [natToChars]
  split
  · simp
  · simp

/-- The longest digit run at the front of the input, and the remainder. -/
def takeDigits : List Char → List Char × List Char
  | [] => ([], [])
  | c :: cs =>
    if isDigitCh c then
      let p := takeDigits cs
      (c :: p.1, p.2)
    else ([], c :: cs)

/-- Value of a digit run, most significant first. -/
def digitsToNat (ds : List Char) : Nat := ds.foldl (fun a c => 10 * a + digitVal c) 0

/-- `true` when the list does not begin with a decimal digit (so a greedy
digit scan stops exactly at its front). -/
def noLeadDigit : List Char → Bool
  | [] => true
  | c :: _ => !isDigitCh c

theorem takeDigits_append {ds rest : List Char}
    (h : ∀ c ∈ ds, isDigitCh c = true) (h2 : noLeadDigit rest = true) :
    takeDigits (ds ++ rest) = (ds, rest) := by
  induction ds with
  | nil =>
    cases rest with
    | nil => rfl
    | cons c cs =>
      simp only [noLeadDigit, Bool.not_eq_true'] at h2
      simp [takeDigits, h2]
  | cons c cs ih =>
    have hc : isDigitCh c = true := h c (by simp)
    simp only [List.cons_append, takeDigits, hc, if_true]
    rw [show cs.append rest = cs ++ rest from rfl, ih (fun x hx => h x (by simp [hx]))]

theorem digitsToNat_natToChars (n : Nat) : digitsToNat (natToChars n) = n := by
  induction n using Nat.strong_induction_on with
  | _ n ih =>
    rw [natToChars]
    split
    · next h =>
      simp [digitsToNat, digitVal_digitChar h]
    · next h =>
      have hlt : n / 10 < n := Nat.div_lt_self (by omega) (by omega)
      have := ih (n / 10) hlt
      simp only [digitsToNat] at this ⊢
      rw [List.foldl_append, this]
      simp [digitVal_digitChar (Nat.mod_lt n (by omega) : n % 10 < 10)]
      omega

/- ## JSON model

Model of the fragment of Go's `encoding/json` used by the repository
(`json.Marshal`, `json.NewEncoder(...).Encode`, `json.Unmarshal` into
`map[string]string`, `json.NewDecoder(...).Decode`).  JSON texts are
`List Char`; numbers are modelled as integers (the repository's payloads carry
strings and integers).  The encoder's escaping follows `encoding/json`
(`"`, `\`, newline, carriage return, tab, and other control characters as
`\u00xx`; HTML escaping of `&<>` is omitted since it does not change the
decoded value).  The parser is a conformant JSON reader for this fragment. -/

/-- Abstract JSON value. -/
inductive Json where
  | null
  | jbool (b : Bool)
  | jnum (n : Int)
  | jstr (s : List Char)
  | jarr (elems : List Json)
  | jobj (members : List (List Char × Json))

/-- Escape one character of a JSON string, as `encoding/json` does. -/
def escapeChar (c : Char) : List Char :=
  if c == '"' then ['\\', '"']
  else if c == '\\' then ['\\', '\\']
  else if c == '\n' then ['\\', 'n']
  else if c == '\r' then ['\\', 'r']
  else if c == '\t' then ['\\', 't']
  else if c.toNat < 32 then ['\\', 'u', '0', '0', hexChar (c.toNat / 16), hexChar (c.toNat % 16)]
  else [c]

/-- Escape a whole string body. -/
def escStr : List Char → List Char
  | [] => []
  | c :: cs => escapeChar c ++ escStr cs

/-- Decimal representation of an integer, as `encoding/json` writes it. -/
def intToChars (n : Int) : List Char :=
  if n < 0 then '-' :: natToChars n.natAbs else natToChars n.toNat

mutual

/-- `json.Marshal` on an abstract value (no insignificant whitespace). -/
def encJson : Json → List Char
  | .null => ['n', 'u', 'l', 'l']
  | .jbool true => ['t', 'r', 'u', 'e']
  | .jbool false => ['f', 'a', 'l', 's', 'e']
  | .jnum n => intToChars n
  | .jstr s => '"' :: escStr s ++ ['"']
  | .jarr es => '[' :: encElems es ++ [']']
  | .jobj ms => '{' :: encMembers ms ++ ['}']

/-- Comma-separated encoding of array elements. -/
def encElems : List Json → List Char
  | [] => []
  | [v] => encJson v
  | v :: vs => encJson v ++ ',' :: encElems vs

/-- Comma-separated encoding of object members. -/
def encMembers : List (List Char × Json) → List Char
  | [] => []
  | [(k, v)] => '"' :: escStr k ++ '"' :: ':' :: encJson v
  | (k, v) :: ms => ('"' :: escStr k ++ '"' :: ':' :: encJson v) ++ ',' :: encMembers ms

end

/-- Skip JSON insignificant whitespace. -/
def skipWs : List Char → List Char
  | [] => []
  | c :: cs => if c == ' ' || c == '\t' || c == '\n' || c == '\r' then skipWs cs else c :: cs

/-- Parse the body of a JSON string after the opening quote, returning the
decoded string and the input after the closing quote.  Surrogate escape pairs
are rejected (the encoder never produces them).  Fueled; any fuel at least
the input length suffices. -/
def parseStrBody : Nat → List Char → Option (List Char × List Char)
  | 0, _ => none
  | _ + 1, [] => none
  | fuel + 1, c :: cs =>
    if c == '"' then some ([], cs)
    else if c == '\\' then
      match cs with
      | [] => none
      | e :: cs' =>
        if e == '"' then (parseStrBody fuel cs').map (fun p => ('"' :: p.1, p.2))
        else if e == '\\' then (parseStrBody fuel cs').map (fun p => ('\\' :: p.1, p.2))
        else if e == '/' then (parseStrBody fuel cs').map (fun p => ('/' :: p.1, p.2))
        else if e == 'b' then (parseStrBody fuel cs').map (fun p => (Char.ofNat 8 :: p.1, p.2))
        else if e == 'f' then (parseStrBody fuel cs').map (fun p => (Char.ofNat 12 :: p.1, p.2))
        else if e == 'n' then (parseStrBody fuel cs').map (fun p => ('\n' :: p.1, p.2))
        else if e == 'r' then (parseStrBody fuel cs').map (fun p => ('\r' :: p.1, p.2))
        else if e == 't' then (parseStrBody fuel cs').map (fun p => ('\t' :: p.1, p.2))
        else if e == 'u' then
          match cs' with
          | h1 :: h2 :: h3 :: h4 :: cs'' =>
            match hexVal h1, hexVal h2, hexVal h3, hexVal h4 with
            | some a, some b, some c2, some d =>
              let v := ((a * 16 + b) * 16 + c2) * 16 + d
              if 0xD800 ≤ v && v < 0xE000 then none
              else (parseStrBody fuel cs'').map (fun p => (Char.ofNat v :: p.1, p.2))
            | _, _, _, _ => none
          | _ => none
        else none
    else (parseStrBody fuel cs).map (fun p => (c :: p.1, p.2))

/-- Parse a JSON integer (optional minus sign, then a greedy digit run). -/
def parseNum : List Char → Option (Int × List Char)
  | [] => none
  | c :: cs =>
    if c == '-' then
      let p := takeDigits cs
      if p.1 = [] then none else some (-(digitsToNat p.1 : Int), p.2)
    else
      let p := takeDigits (c :: cs)
      if p.1 = [] then none else some ((digitsToNat p.1 : Int), p.2)

/-- Consume exactly the literal characters `pat` from the front of `s`. -/
def expectChars : List Char → List Char → Option (List Char)
  | [], s => some s
  | _ :: _, [] => none
  | p :: ps, c :: cs => if c == p then expectChars ps cs else none

/-- Consume one literal character from the front of `s`. -/
def stripCh (c : Char) : List Char → Option (List Char)
  | [] => none
  | x :: r => if x == c then some r else none

mutual

/-- Parse one JSON value (fueled; any fuel at least the structural size of
the value suffices). -/
def parseVal : Nat → List Char → Option (Json × List Char)
  | 0, _ => none
  | fuel + 1, s =>
    match skipWs s with
    | [] => none
    | c :: cs =>
      if c == 'n' then (expectChars ['u', 'l', 'l'] cs).map (fun r => (Json.null, r))
      else if c == 't' then (expectChars ['r', 'u', 'e'] cs).map (fun r => (Json.jbool true, r))
      else if c == 'f' then (expectChars ['a', 'l', 's', 'e'] cs).map (fun r => (Json.jbool false, r))
      else if c == '"' then
        (parseStrBody (cs.length + 1) cs).map (fun p => (Json.jstr p.1, p.2))
      else if c == '[' then
        match stripCh ']' (skipWs cs) with
        | some r => some (Json.jarr [], r)
        | none => (parseElems fuel (skipWs cs)).map (fun p => (Json.jarr p.1, p.2))
      else if c == '{' then
        match stripCh '}' (skipWs cs) with
        | some r => some (Json.jobj [], r)
        | none => (parseMembers fuel (skipWs cs)).map (fun p => (Json.jobj p.1, p.2))
      else (parseNum (c :: cs)).map (fun p => (Json.jnum p.1, p.2))

/-- Parse `value (',' value)* ']'` inside a non-empty array. -/
def parseElems : Nat → List Char → Option (List Json × List Char)
  | 0, _ => none
  | fuel + 1, s => do
    let (v, r) ← parseVal fuel s
    match skipWs r with
    | ',' :: r2 => (parseElems fuel r2).map (fun p => (v :: p.1, p.2))
    | ']' :: r2 => some ([v], r2)
    | _ => none

/-- Parse `string ':' value (',' member)* '}'` inside a non-empty object. -/
def parseMembers : Nat → List Char → Option (List (List Char × Json) × List Char)
  | 0, _ => none
  | fuel + 1, s =>
    match skipWs s with
    | '"' :: cs => do
      let (k, r) ← parseStrBody (cs.length + 1) cs
      match skipWs r with
      | ':' :: r2 => do
        let (v, r3) ← parseVal fuel r2
        match skipWs r3 with
        | ',' :: r4 => (parseMembers fuel r4).map (fun p => ((k, v) :: p.1, p.2))
        | '}' :: r4 => some ([(k, v)], r4)
        | _ => none
      | _ => none
    | _ => none

end

/-- Parse a complete JSON text: one value, possibly surrounded by
whitespace, with nothing after it (`json.Unmarshal` / a `Decoder` that must
consume the whole body). -/
def jsonDecode (s : List Char) : Option Json :=
  match parseVal (2 * s.length + 2) s with
  | some (v, r) => if skipWs r = [] then some v else none
  | none => none

/- ### Encoder/parser round trip -/

mutual

/-- Structural fuel needed to parse an encoded value. -/
def jsize : Json → Nat
  | .null => 1
  | .jbool _ => 1
  | .jnum _ => 1
  | .jstr _ => 1
  | .jarr es => 1 + jsizeL es
  | .jobj ms => 1 + jsizeM ms

/-- Fuel for an element list. -/
def jsizeL : List Json → Nat
  | [] => 1
  | v :: vs => 1 + jsize v + jsizeL vs

/-- Fuel for a member list. -/
def jsizeM : List (List Char × Json) → Nat
  | [] => 1
  | (_, v) :: ms => 1 + jsize v + jsizeM ms

end

theorem jsize_pos (v : Json) : 1 ≤ jsize v := by
  cases v <;> (simp only [jsize]; omega)

theorem jsizeL_pos (es : List Json) : 1 ≤ jsizeL es := by
  cases es <;> (simp only [jsizeL]; omega)

theorem jsizeM_pos (ms : List (List Char × Json)) : 1 ≤ jsizeM ms := by
  rcases ms with _ | ⟨⟨k, v⟩, ms⟩ <;> (simp only [jsizeM]; omega)

theorem natToChars_head (n : Nat) :
    ∃ c t, natToChars n = c :: t ∧ isDigitCh c = true := by
  induction n using Nat.strong_induction_on with
  | _ n ih =>
    rw [natToChars]
    split
    · next h => exact ⟨digitChar n, [], rfl, isDigitCh_digitChar h⟩
    · next h =>
      obtain ⟨c, t, heq, hd⟩ := ih (n / 10) (Nat.div_lt_self (by omega) (by omega))
      exact ⟨c, t ++ [digitChar (n % 10)], by rw [heq]; rfl, hd⟩

/-- The characters an encoded JSON value can start with. -/
def jsonHead (c : Char) : Bool :=
  c == 'n' || c == 't' || c == 'f' || c == '"' || c == '[' || c == '{' ||
    c == '-' || isDigitCh c

theorem encJson_head (v : Json) :
    ∃ c t, encJson v = c :: t ∧ jsonHead c = true := by
  cases v with
  | null => exact ⟨'n', _, rfl, rfl⟩
  | jbool b =>
    cases b
    · exact ⟨'f', _, rfl, rfl⟩
    · exact ⟨'t', _, rfl, rfl⟩
  | jnum n =>
    by_cases hn : n < 0
    · refine ⟨'-', natToChars n.natAbs, ?_, rfl⟩
      simp [encJson, intToChars, hn]
    · obtain ⟨c, t, heq, hd⟩ := natToChars_head n.toNat
      refine ⟨c, t, ?_, by simp [jsonHead, hd]⟩
      simp [encJson, intToChars, hn, heq]
  | jstr s => exact ⟨'"', _, rfl, rfl⟩
  | jarr es => exact ⟨'[', _, rfl, rfl⟩
  | jobj ms => exact ⟨'{', _, rfl, rfl⟩

/-- A digit character differs from every character outside `'0'..'9'`. -/
theorem digit_beq_false {c : Char} (hd : isDigitCh c = true) (d : Char)
    (hdn : d.toNat < 48 ∨ 57 < d.toNat) : (c == d) = false := by
  simp only [isDigitCh, Bool.and_eq_true, decide_eq_true_eq] at hd
  apply beq_eq_false_iff_ne.mpr
  intro h
  subst h
  omega

/-- Facts letting the parser's dispatch fall through on a digit head. -/
theorem isDigitCh_dispatch {c : Char} (hd : isDigitCh c = true) :
    (c == 'n') = false ∧ (c == 't') = false ∧ (c == 'f') = false ∧
    (c == '"') = false ∧ (c == '[') = false ∧ (c == '{') = false ∧
    (c == '-') = false ∧
    (c == ' ' || c == '\t' || c == '\n' || c == '\r') = false ∧
    (c == ']') = false ∧ (c == '}') = false := by
  refine ⟨digit_beq_false hd _ (by decide), digit_beq_false hd _ (by decide),
    digit_beq_false hd _ (by decide), digit_beq_false hd _ (by decide),
    digit_beq_false hd _ (by decide), digit_beq_false hd _ (by decide),
    digit_beq_false hd _ (by decide), ?_,
    digit_beq_false hd _ (by decide), digit_beq_false hd _ (by decide)⟩
  rw [digit_beq_false hd ' ' (by decide), digit_beq_false hd '\t' (by decide),
    digit_beq_false hd '\n' (by decide), digit_beq_false hd '\r' (by decide)]
  rfl

/-- A `jsonHead` character is not whitespace. -/
theorem jsonHead_not_ws {c : Char} (h : jsonHead c = true) :
    (c == ' ' || c == '\t' || c == '\n' || c == '\r') = false := by
  simp only [jsonHead, Bool.or_eq_true] at h
  rcases h with ((((((h | h) | h) | h) | h) | h) | h) | h
  all_goals first
    | (rw [beq_iff_eq] at h; subst h; rfl)
    | exact (isDigitCh_dispatch h).2.2.2.2.2.2.2.1

/-- A `jsonHead` character is not a closing bracket. -/
theorem jsonHead_ne_close {c : Char} (h : jsonHead c = true) :
    (c == ']') = false ∧ (c == '}') = false := by
  simp only [jsonHead, Bool.or_eq_true] at h
  rcases h with ((((((h | h) | h) | h) | h) | h) | h) | h
  all_goals first
    | (rw [beq_iff_eq] at h; subst h; exact ⟨rfl, rfl⟩)
    | exact ⟨(isDigitCh_dispatch h).2.2.2.2.2.2.2.2.1,
        (isDigitCh_dispatch h).2.2.2.2.2.2.2.2.2⟩

/-- `skipWs` does not move over a non-whitespace head. -/
theorem skipWs_no_ws {c : Char} {cs : List Char}
    (h : (c == ' ' || c == '\t' || c == '\n' || c == '\r') = false) :
    skipWs (c :: cs) = c :: cs := by
  simp [skipWs, h]

theorem parseStrBody_u (f a b : Nat) (ha : a < 16) (hb : b < 16)
    (hs : 16 * a + b < 0xD800) (X : List Char) :
    parseStrBody (f + 1) ('\\' :: 'u' :: '0' :: '0' :: hexChar a :: hexChar b :: X) =
      (parseStrBody f X).map (fun p => (Char.ofNat (16 * a + b) :: p.1, p.2)) := by
  simp only [parseStrBody]
  simp only [show ('\\' == '"') = false from rfl, show ('\\' == '\\') = true from rfl,
    Bool.false_eq_true, if_false, if_true]
  simp only [show ('u' == '"') = false from rfl, show ('u' == '\\') = false from rfl,
    show ('u' == '/') = false from rfl, show ('u' == 'b') = false from rfl,
    show ('u' == 'f') = false from rfl, show ('u' == 'n') = false from rfl,
    show ('u' == 'r') = false from rfl, show ('u' == 't') = false from rfl,
    show ('u' == 'u') = true from rfl, Bool.false_eq_true, if_false, if_true]
  rw [show hexVal '0' = some 0 from rfl, hexVal_hexChar ha, hexVal_hexChar hb]
  simp only []
  rw [show ((0 * 16 + 0) * 16 + a) * 16 + b = 16 * a + b by omega]
  rw [if_neg (by simp only [Bool.and_eq_true, decide_eq_true_eq]; omega)]

theorem parseStrBody_escStr (s : List Char) : ∀ fuel rest, (escStr s).length < fuel →
    parseStrBody fuel (escStr s ++ '"' :: rest) = some (s, rest) := by
  induction s with
  | nil =>
    intro fuel rest h
    cases fuel with
    | zero => omega
    | succ f => rfl
  | cons c s' ih =>
    intro fuel rest h
    rw [show escStr (c :: s') = escapeChar c ++ escStr s' from rfl] at h ⊢
    rw [List.append_assoc]
    by_cases h1 : (c == '"') = true
    · have hesc : escapeChar c = ['\\', '"'] := by unfold escapeChar; rw [if_pos h1]
      rw [beq_iff_eq] at h1
      subst h1
      rw [hesc] at h ⊢
      cases fuel with
      | zero => simp at h
      | succ f =>
        show (parseStrBody f (escStr s' ++ '"' :: rest)).map
          (fun p => ('"' :: p.1, p.2)) = _
        rw [ih f rest (by simp only [List.length_cons, List.length_append] at h ⊢; omega)]
        rfl
    · by_cases h2 : (c == '\\') = true
      · have hesc : escapeChar c = ['\\', '\\'] := by
          unfold escapeChar; rw [if_neg h1, if_pos h2]
        rw [beq_iff_eq] at h2
        subst h2
        rw [hesc] at h ⊢
        cases fuel with
        | zero => simp at h
        | succ f =>
          show (parseStrBody f (escStr s' ++ '"' :: rest)).map
            (fun p => ('\\' :: p.1, p.2)) = _
          rw [ih f rest (by simp only [List.length_cons, List.length_append] at h ⊢; omega)]
          rfl
      · by_cases h3 : (c == '\n') = true
        · have hesc : escapeChar c = ['\\', 'n'] := by
            unfold escapeChar; rw [if_neg h1, if_neg h2, if_pos h3]
          rw [beq_iff_eq] at h3
          subst h3
          rw [hesc] at h ⊢
          cases fuel with
          | zero => simp at h
          | succ f =>
            show (parseStrBody f (escStr s' ++ '"' :: rest)).map
              (fun p => ('\n' :: p.1, p.2)) = _
            rw [ih f rest (by simp only [List.length_cons, List.length_append] at h ⊢; omega)]
            rfl
        · by_cases h4 : (c == '\r') = true
          · have hesc : escapeChar c = ['\\', 'r'] := by
              unfold escapeChar; rw [if_neg h1, if_neg h2, if_neg h3, if_pos h4]
            rw [beq_iff_eq] at h4
            subst h4
            rw [hesc] at h ⊢
            cases fuel with
            | zero => simp at h
            | succ f =>
              show (parseStrBody f (escStr s' ++ '"' :: rest)).map
                (fun p => ('\r' :: p.1, p.2)) = _
              rw [ih f rest (by simp only [List.length_cons, List.length_append] at h ⊢; omega)]
              rfl
          · by_cases h5 : (c == '\t') = true
            · have hesc : escapeChar c = ['\\', 't'] := by
                unfold escapeChar; rw [if_neg h1, if_neg h2, if_neg h3, if_neg h4, if_pos h5]
              rw [beq_iff_eq] at h5
              subst h5
              rw [hesc] at h ⊢
              cases fuel with
              | zero => simp at h
              | succ f =>
                show (parseStrBody f (escStr s' ++ '"' :: rest)).map
                  (fun p => ('\t' :: p.1, p.2)) = _
                rw [ih f rest (by simp only [List.length_cons, List.length_append] at h ⊢; omega)]
                rfl
            · by_cases h6 : c.toNat < 32
              · have hesc : escapeChar c =
                    ['\\', 'u', '0', '0', hexChar (c.toNat / 16), hexChar (c.toNat % 16)] := by
                  unfold escapeChar
                  rw [if_neg h1, if_neg h2, if_neg h3, if_neg h4, if_neg h5, if_pos h6]
                rw [hesc] at h ⊢
                cases fuel with
                | zero => simp at h
                | succ f =>
                  rw [show ('\\' :: 'u' :: '0' :: '0' :: hexChar (c.toNat / 16) ::
                      hexChar (c.toNat % 16) :: []) ++ (escStr s' ++ '"' :: rest) =
                      '\\' :: 'u' :: '0' :: '0' :: hexChar (c.toNat / 16) ::
                      hexChar (c.toNat % 16) :: (escStr s' ++ '"' :: rest) from rfl]
                  rw [parseStrBody_u f (c.toNat / 16) (c.toNat % 16) (by omega) (by omega)
                    (by omega) (escStr s' ++ '"' :: rest)]
                  rw [ih f rest (by simp only [List.length_cons, List.length_append] at h ⊢; omega)]
                  rw [show 16 * (c.toNat / 16) + c.toNat % 16 = c.toNat by omega,
                    Char.ofNat_toNat]
                  rfl
              · have hesc : escapeChar c = [c] := by
                  unfold escapeChar
                  rw [if_neg h1, if_neg h2, if_neg h3, if_neg h4, if_neg h5, if_neg h6]
                rw [hesc] at h ⊢
                cases fuel with
                | zero => simp at h
                | succ f =>
                  simp only [Bool.not_eq_true] at h1 h2
                  simp only [List.cons_append, List.nil_append, parseStrBody, h1, h2,
                    Bool.false_eq_true, if_false]
                  rw [show ([] : List Char).append (escStr s' ++ '"' :: rest) =
                    escStr s' ++ '"' :: rest from rfl]
                  rw [ih f rest (by simp only [List.length_cons, List.length_append] at h ⊢; omega)]
                  rfl

theorem parseNum_intToChars (n : Int) (rest : List Char)
    (hr : noLeadDigit rest = true) :
    parseNum (intToChars n ++ rest) = some (n, rest) := by
  by_cases hn : n < 0
  · simp only [intToChars, if_pos hn, List.cons_append]
    show (let p := takeDigits (natToChars n.natAbs ++ rest);
      if p.1 = [] then none else some (-(digitsToNat p.1 : Int), p.2)) = _
    rw [takeDigits_append (natToChars_all_digits _) hr]
    simp only [natToChars_ne_nil, if_false, digitsToNat_natToChars]
    have : -((n.natAbs : Nat) : Int) = n := by omega
    rw [this]
  · simp only [intToChars, if_neg hn]
    obtain ⟨c, t, heq, hd⟩ := natToChars_head n.toNat
    rw [heq, List.cons_append]
    have hmb := (isDigitCh_dispatch hd).2.2.2.2.2.2.1
    simp only [parseNum, hmb, Bool.false_eq_true, if_false]
    rw [show c :: (t ++ rest) = (c :: t) ++ rest from rfl, ← heq,
      takeDigits_append (natToChars_all_digits _) hr]
    simp only [natToChars_ne_nil, if_false, digitsToNat_natToChars]
    congr 1
    have : ((n.toNat : Nat) : Int) = n := by omega
    rw [this]

theorem encElems_head (e : Json) (es : List Json) :
    ∃ c t, encElems (e :: es) = c :: t ∧ jsonHead c = true := by
  obtain ⟨c, t, he, hh⟩ := encJson_head e
  cases es with
  | nil => exact ⟨c, t, by rw [show encElems [e] = encJson e from rfl, he], hh⟩
  | cons e2 es2 =>
    exact ⟨c, t ++ ',' :: encElems (e2 :: es2),
      by rw [show encElems (e :: e2 :: es2) = encJson e ++ ',' :: encElems (e2 :: es2) from rfl,
        he]; rfl, hh⟩

theorem encMembers_shape (k : List Char) (v : Json) (ms : List (List Char × Json)) :
    encMembers ((k, v) :: ms) =
      '"' :: (escStr k ++ '"' :: ':' ::
        (encJson v ++ match ms with | [] => [] | _ :: _ => ',' :: encMembers ms)) := by
  cases ms with
  | nil => simp [encMembers]
  | cons m2 ms2 =>
    rw [show encMembers ((k, v) :: m2 :: ms2) =
      ('"' :: escStr k ++ '"' :: ':' :: encJson v) ++ ',' :: encMembers (m2 :: ms2) from rfl]
    simp [List.append_assoc]

/-- A value head is never a digit-run continuation problem: list heads after a
separator are not digits. -/
theorem noLeadDigit_cons (c : Char) (h : isDigitCh c = false) (t : List Char) :
    noLeadDigit (c :: t) = true := by
  simp [noLeadDigit, h]

/-- Reduce `parseVal` on a digit head to the number branch. -/
theorem parseVal_digit_head (f : Nat) {c : Char} (hd : isDigitCh c = true)
    (cs : List Char) :
    parseVal (f + 1) (c :: cs) =
      (parseNum (c :: cs)).map (fun p => (Json.jnum p.1, p.2)) := by
  obtain ⟨d1, d2, d3, d4, d5, d6, _, dws, _, _⟩ := isDigitCh_dispatch hd
  simp only [parseVal, skipWs, dws, Bool.false_eq_true, if_false,
    d1, d2, d3, d4, d5, d6]

/-- Reduce `parseVal` on `'{'` followed by a quote to the member parser. -/
theorem parseVal_obj_head (f : Nat) (W : List Char) :
    parseVal (f + 1) ('{' :: ('"' :: W)) =
      (parseMembers f ('"' :: W)).map
        (fun (p : List (List Char × Json) × List Char) => (Json.jobj p.1, p.2)) := rfl

/-- Reduce `parseMembers` on one encoded member followed by `Z`. -/
theorem parseMembersStep (f : Nat) (k : List Char) (v : Json) (Z : List Char) :
    parseMembers (f + 1) ('"' :: (escStr k ++ ('"' :: (':' :: (encJson v ++ Z))))) =
      (parseVal f (encJson v ++ Z)).bind (fun q =>
        match skipWs q.2 with
        | ',' :: r4 => (parseMembers f r4).map
            (fun (p : List (List Char × Json) × List Char) => ((k, q.1) :: p.1, p.2))
        | '}' :: r4 => some ([(k, q.1)], r4)
        | _ => none) := by
  show (parseStrBody ((escStr k ++ ('"' :: (':' :: (encJson v ++ Z)))).length + 1)
      (escStr k ++ ('"' :: (':' :: (encJson v ++ Z))))).bind
      (fun q => match skipWs q.2 with
        | ':' :: r2 => (parseVal f r2).bind (fun q2 => match skipWs q2.2 with
            | ',' :: r4 => (parseMembers f r4).map
                (fun (p : List (List Char × Json) × List Char) => ((q.1, q2.1) :: p.1, p.2))
            | '}' :: r4 => some ([(q.1, q2.1)], r4)
            | _ => none)
        | _ => none) = _
  rw [parseStrBody_escStr k _ (':' :: (encJson v ++ Z))
    (by simp only [List.length_append, List.length_cons]; omega)]
  rfl

/-- The encoder/parser round trip, by strong induction on the fuel. -/
theorem parse_enc (fuel : Nat) :
    (∀ v rest, jsize v ≤ fuel → noLeadDigit rest = true →
      parseVal fuel (encJson v ++ rest) = some (v, rest)) ∧
    (∀ es rest, jsizeL es ≤ fuel → es ≠ [] →
      parseElems fuel (encElems es ++ ']' :: rest) = some (es, rest)) ∧
    (∀ ms rest, jsizeM ms ≤ fuel → ms ≠ [] →
      parseMembers fuel (encMembers ms ++ '}' :: rest) = some (ms, rest)) := by
  induction fuel using Nat.strong_induction_on with
  | _ fuel ih =>
  rcases fuel with _ | f
  · refine ⟨?_, ?_, ?_⟩
    · intro v rest hs _
      have := jsize_pos v
      omega
    · intro es rest hs _
      have := jsizeL_pos es
      omega
    · intro ms rest hs _
      have := jsizeM_pos ms
      omega
  · refine ⟨?_, ?_, ?_⟩
    · -- parseVal
      intro v rest hs hrest
      cases v with
      | null => rfl
      | jbool b => cases b <;> rfl
      | jnum n =>
        by_cases hn : n < 0
        · rw [show encJson (Json.jnum n) = intToChars n from rfl]
          have hi : intToChars n = '-' :: natToChars n.natAbs := by
            simp [intToChars, hn]
          rw [hi, List.cons_append]
          show (parseNum ('-' :: (natToChars n.natAbs ++ rest))).map
            (fun p => (Json.jnum p.1, p.2)) = _
          rw [show '-' :: (natToChars n.natAbs ++ rest) = intToChars n ++ rest from by
            rw [hi]; rfl]
          rw [parseNum_intToChars n rest hrest]
          rfl
        · obtain ⟨c, t, heq, hd⟩ := natToChars_head n.toNat
          have henc : encJson (Json.jnum n) = c :: t := by
            rw [show encJson (Json.jnum n) = intToChars n from rfl]
            simp [intToChars, hn, heq]
          rw [henc, List.cons_append, parseVal_digit_head f hd]
          rw [show c :: (t ++ rest) = encJson (Json.jnum n) ++ rest from by
            rw [henc]; rfl]
          rw [show encJson (Json.jnum n) = intToChars n from rfl,
            parseNum_intToChars n rest hrest]
          rfl
      | jstr s =>
        rw [show encJson (Json.jstr s) ++ rest = '"' :: ((escStr s ++ ['"']) ++ rest) from rfl,
          List.append_assoc, show ['"'] ++ rest = '"' :: rest from rfl]
        show (parseStrBody ((escStr s ++ '"' :: rest).length + 1)
          (escStr s ++ '"' :: rest)).map (fun p => (Json.jstr p.1, p.2)) = _
        rw [parseStrBody_escStr s ((escStr s ++ '"' :: rest).length + 1) rest
          (by simp only [List.length_append, List.length_cons]; omega)]
        rfl
      | jarr es =>
        cases es with
        | nil => rfl
        | cons e es' =>
          rw [show encJson (Json.jarr (e :: es')) ++ rest =
            '[' :: ((encElems (e :: es') ++ [']']) ++ rest) from rfl,
            List.append_assoc, show ([']'] ++ rest) = ']' :: rest from rfl]
          obtain ⟨c, t, hE, hh⟩ := encElems_head e es'
          have hws := jsonHead_not_ws hh
          have hcl := (jsonHead_ne_close hh).1
          show (match stripCh ']' (skipWs (encElems (e :: es') ++ ']' :: rest)) with
            | some r => some (Json.jarr [], r)
            | none => (parseElems f (skipWs (encElems (e :: es') ++ ']' :: rest))).map
                (fun (p : List Json × List Char) => (Json.jarr p.1, p.2))) = _
          rw [show encElems (e :: es') ++ ']' :: rest = c :: (t ++ ']' :: rest) from by
            rw [hE]; rfl]
          rw [skipWs_no_ws hws]
          rw [show stripCh ']' (c :: (t ++ ']' :: rest)) = none from by
            simp [stripCh, hcl]]
          show (parseElems f (c :: (t ++ ']' :: rest))).map
            (fun (p : List Json × List Char) => (Json.jarr p.1, p.2)) = _
          rw [show c :: (t ++ ']' :: rest) = encElems (e :: es') ++ ']' :: rest from by
            rw [hE]; rfl]
          rw [(ih f (by omega)).2.1 (e :: es') rest
            (by simp only [jsize] at hs; omega) (by simp)]
          rfl
      | jobj ms =>
        cases ms with
        | nil => rfl
        | cons m ms' =>
          obtain ⟨k, v⟩ := m
          obtain ⟨T, hT⟩ : ∃ T, encMembers ((k, v) :: ms') =
              '"' :: (escStr k ++ '"' :: ':' :: (encJson v ++ T)) :=
            ⟨_, encMembers_shape k v ms'⟩
          have hR : encMembers ((k, v) :: ms') ++ '}' :: rest =
              '"' :: ((escStr k ++ '"' :: ':' :: (encJson v ++ T)) ++ '}' :: rest) := by
            rw [hT, List.cons_append]
          rw [show encJson (Json.jobj ((k, v) :: ms')) ++ rest =
            '{' :: (encMembers ((k, v) :: ms') ++ '}' :: rest) from by
            rw [show encJson (Json.jobj ((k, v) :: ms')) =
              '{' :: (encMembers ((k, v) :: ms') ++ ['}']) from rfl]
            simp [List.append_assoc]]
          rw [hR, parseVal_obj_head f _, ← hR]
          rw [(ih f (by omega)).2.2 ((k, v) :: ms') rest
            (by simp only [jsize] at hs; omega) (by simp)]
          rfl
    · -- parseElems
      intro es rest hs hne
      rcases es with _ | ⟨e, es'⟩
      · exact absurd rfl hne
      cases es' with
      | nil =>
        rw [show encElems [e] = encJson e from rfl]
        have h1 := (ih f (by omega)).1 e (']' :: rest)
          (by simp only [jsizeL] at hs; have := jsize_pos e; omega) rfl
        simp only [parseElems]
        rw [h1]
        rfl
      | cons e2 es2 =>
        rw [show encElems (e :: e2 :: es2) ++ ']' :: rest =
            encJson e ++ (',' :: (encElems (e2 :: es2) ++ ']' :: rest)) from by
          rw [show encElems (e :: e2 :: es2) = encJson e ++ ',' :: encElems (e2 :: es2) from rfl]
          simp [List.append_assoc]]
        have h1 := (ih f (by omega)).1 e (',' :: (encElems (e2 :: es2) ++ ']' :: rest))
          (by simp only [jsizeL] at hs ⊢; omega) rfl
        simp only [parseElems]
        rw [h1]
        show (parseElems f (encElems (e2 :: es2) ++ ']' :: rest)).map
          (fun (p : List Json × List Char) => (e :: p.1, p.2)) = _
        rw [(ih f (by omega)).2.1 (e2 :: es2) rest
          (by simp only [jsizeL] at hs ⊢; omega) (by simp)]
        rfl
    · -- parseMembers
      intro ms rest hs hne
      rcases ms with _ | ⟨⟨k, v⟩, ms'⟩
      · exact absurd rfl hne
      cases ms' with
      | nil =>
        have hstream : encMembers [(k, v)] ++ '}' :: rest =
            '"' :: (escStr k ++ ('"' :: (':' :: (encJson v ++ '}' :: rest)))) := by
          rw [encMembers_shape]
          simp [List.append_assoc]
        rw [hstream, parseMembersStep f k v ('}' :: rest)]
        have h1 := (ih f (by omega)).1 v ('}' :: rest)
          (by simp only [jsizeM] at hs ⊢; omega) rfl
        rw [h1]
        rfl
      | cons m2 ms2 =>
        have hstream : encMembers ((k, v) :: m2 :: ms2) ++ '}' :: rest =
            '"' :: (escStr k ++ ('"' :: (':' :: (encJson v ++
              (',' :: (encMembers (m2 :: ms2) ++ '}' :: rest)))))) := by
          rw [encMembers_shape]
          simp [List.append_assoc]
        rw [hstream, parseMembersStep f k v
          (',' :: (encMembers (m2 :: ms2) ++ '}' :: rest))]
        have h1 := (ih f (by omega)).1 v (',' :: (encMembers (m2 :: ms2) ++ '}' :: rest))
          (by simp only [jsizeM] at hs ⊢; omega) rfl
        rw [h1]
        show (parseMembers f (encMembers (m2 :: ms2) ++ '}' :: rest)).map
          (fun (p : List (List Char × Json) × List Char) => ((k, v) :: p.1, p.2)) = _
        rw [(ih f (by omega)).2.2 (m2 :: ms2) rest
          (by simp only [jsizeM] at hs ⊢; omega) (by simp)]
        rfl

/-- Encoded non-negative numbers are non-empty. -/
theorem natToChars_length_pos (n : Nat) : 1 ≤ (natToChars n).length := by
  rcases h : natToChars n with _ | ⟨c, t⟩
  · exact absurd h (natToChars_ne_nil n)
  · simp

/-- The parse fuel needed for a value is at most twice its encoded length. -/
theorem size_le (m : Nat) :
    (∀ v, jsize v ≤ m → jsize v ≤ 2 * (encJson v).length) ∧
    (∀ es, jsizeL es ≤ m → jsizeL es ≤ 2 * (encElems es).length + 2) ∧
    (∀ ms, jsizeM ms ≤ m → jsizeM ms ≤ 2 * (encMembers ms).length + 2) := by
  induction m using Nat.strong_induction_on with
  | _ m ih =>
  refine ⟨?_, ?_, ?_⟩
  · intro v hv
    cases v with
    | null => simp [jsize, encJson]
    | jbool b => cases b <;> simp [jsize, encJson]
    | jnum n =>
      simp only [jsize, encJson, intToChars]
      split
      · simp only [List.length_cons]
        have := natToChars_length_pos n.natAbs
        omega
      · have := natToChars_length_pos n.toNat
        omega
    | jstr s =>
      simp only [jsize, encJson, List.length_cons, List.length_append]
      omega
    | jarr es =>
      have hm : 1 ≤ m := le_trans (jsize_pos _) hv
      simp only [jsize] at hv ⊢
      have hL := (ih (m - 1) (by omega)).2.1 es (by omega)
      simp only [encJson, List.length_cons, List.length_append, List.length_singleton]
      omega
    | jobj ms =>
      have hm : 1 ≤ m := le_trans (jsize_pos _) hv
      simp only [jsize] at hv ⊢
      have hM := (ih (m - 1) (by omega)).2.2 ms (by omega)
      simp only [encJson, List.length_cons, List.length_append, List.length_singleton]
      omega
  · intro es hes
    cases es with
    | nil => simp [jsizeL, encElems]
    | cons v vs =>
      have hm : 1 ≤ m := le_trans (jsizeL_pos _) hes
      simp only [jsizeL] at hes ⊢
      have h1 := (ih (m - 1) (by omega)).1 v
        (by have := jsizeL_pos vs; omega)
      have h2 := (ih (m - 1) (by omega)).2.1 vs
        (by have := jsize_pos v; omega)
      cases vs with
      | nil =>
        simp only [jsizeL] at h2 ⊢
        rw [show encElems [v] = encJson v from rfl]
        omega
      | cons v2 vs2 =>
        rw [show encElems (v :: v2 :: vs2) = encJson v ++ ',' :: encElems (v2 :: vs2)
          from rfl]
        simp only [List.length_append, List.length_cons]
        omega
  · intro ms hms
    cases ms with
    | nil => simp [jsizeM, encMembers]
    | cons kv ms' =>
      obtain ⟨k, v⟩ := kv
      have hm : 1 ≤ m := le_trans (jsizeM_pos _) hms
      simp only [jsizeM] at hms ⊢
      have h1 := (ih (m - 1) (by omega)).1 v
        (by have := jsizeM_pos ms'; omega)
      have h2 := (ih (m - 1) (by omega)).2.2 ms'
        (by have := jsize_pos v; omega)
      rw [encMembers_shape]
      cases ms' with
      | nil =>
        simp only [jsizeM] at h2 ⊢
        simp only [List.length_cons, List.length_append, List.length_nil, List.append_nil]
        omega
      | cons m2 ms2 =>
        simp only [List.length_cons, List.length_append]
        omega

/-- Round trip through the complete decoder: what `json.NewEncoder(w).Encode`
writes (the value followed by a newline) decodes back to the value. -/
theorem jsonDecode_enc_newline (v : Json) :
    jsonDecode (encJson v ++ ['\n']) = some v := by
  unfold jsonDecode
  have hb : jsize v ≤ 2 * (encJson v ++ ['\n']).length + 2 := by
    have h := (size_le (jsize v)).1 v (le_refl _)
    simp only [List.length_append, List.length_cons, List.length_nil]
    omega
  rw [(parse_enc (2 * (encJson v ++ ['\n']).length + 2)).1 v ['\n'] hb rfl]
  rfl

/-- Round trip through the complete decoder for a bare `json.Marshal` text. -/
theorem jsonDecode_enc (v : Json) : jsonDecode (encJson v) = some v := by
  unfold jsonDecode
  have hb : jsize v ≤ 2 * (encJson v).length + 2 := by
    have h := (size_le (jsize v)).1 v (le_refl _)
    omega
  have := (parse_enc (2 * (encJson v).length + 2)).1 v [] hb rfl
  rw [List.append_nil] at this
  rw [this]
  rfl

/- ## ResponseError (docusign.go lines 272-293; identical copy in
recipients.go lines 2282-2306)

Go source of the decoder:
  func (r *ResponseError) UnmarshalJSON(b []byte) error {
      t := make(map[string]string)
      err := json.Unmarshal(b, &t)
      if err != nil { return err }
      for k, v := range t {
          if k == "errorCode" || k == "error" { r.Err = v }
          else if k == "message" || k == "error_description" { r.Description = v }
      }
      return nil
  } -/

/-- The `ResponseError` struct (`Err`, `Description`, `Status`). -/
structure ResponseError where
  err : List Char
  description : List Char
  status : Int
deriving DecidableEq, Repr

/-- Store into the map built by `json.Unmarshal` for a JSON object: a later
duplicate key overwrites the earlier value. -/
def mapInsert (k v : List Char) :
    List (List Char × List Char) → List (List Char × List Char)
  | [] => [(k, v)]
  | (k', v') :: t => if k' = k then (k, v) :: t else (k', v') :: mapInsert k v t

/-- Decode the members of a JSON object into `map[string]string`, as Go's
`encoding/json` does: a string value is stored; `null` stores the zero value
(the empty string); any other value type is a decode error (Go reports the
first such error). -/
def jsonStrMapAux : List (List Char × Json) → List (List Char × List Char) →
    Except (List Char) (List (List Char × List Char))
  | [], acc => Except.ok acc
  | (k, v) :: ms, acc =>
    match v with
    | Json.jstr sv => jsonStrMapAux ms (mapInsert k sv acc)
    | Json.null => jsonStrMapAux ms (mapInsert k [] acc)
    | Json.jnum _ =>
      Except.error "json: cannot unmarshal number into Go value of type string".toList
    | Json.jbool _ =>
      Except.error "json: cannot unmarshal bool into Go value of type string".toList
    | Json.jarr _ =>
      Except.error "json: cannot unmarshal array into Go value of type string".toList
    | Json.jobj _ =>
      Except.error "json: cannot unmarshal object into Go value of type string".toList

/-- `json.Unmarshal(b, &map[string]string)` applied to a parsed value: a JSON
object decodes member-wise; `null` leaves the map untouched (no iterations);
any other value type is a decode error. -/
def strMapOfJson : Json → Except (List Char) (List (List Char × List Char))
  | Json.jobj ms => jsonStrMapAux ms []
  | Json.null => Except.ok []
  | _ =>
    Except.error
      "json: cannot unmarshal value into Go value of type map[string]string".toList

/-- The loop `for k, v := range t` of `ResponseError.UnmarshalJSON`.  Go map
iteration order is arbitrary; the model iterates in the parser's textual
order (for the payloads of the claims below at most one key targets each
field, so every order produces this result). -/
def reFold (r : ResponseError) : List (List Char × List Char) → ResponseError
  | [] => r
  | (k, v) :: t =>
    reFold
      (if k = "errorCode".toList ∨ k = "error".toList then { r with err := v }
       else if k = "message".toList ∨ k = "error_description".toList then
         { r with description := v }
       else r) t

/-- `json.Unmarshal` of a complete JSON text (must consume the whole input),
with the decoder's error message on failure. -/
def jsonDecodeE (s : List Char) : Except (List Char) Json :=
  match parseVal (2 * s.length + 2) s with
  | some (v, r) =>
    if skipWs r = [] then Except.ok v
    else Except.error "invalid character after top-level value".toList
  | none => Except.error "unexpected end of JSON input".toList

/-- `json.Unmarshal(b, r)` for `r : *ResponseError`, i.e. the whole of
`ResponseError.UnmarshalJSON` applied to the raw bytes `b` starting from
receiver state `r`: decode into a string map, then fold.  A decode error
leaves the receiver unchanged and is returned. -/
def reUnmarshal (r : ResponseError) (b : List Char) : Except (List Char) ResponseError :=
  match jsonDecodeE b with
  | Except.error e => Except.error e
  | Except.ok j =>
    match strMapOfJson j with
    | Except.error e => Except.error e
    | Except.ok t => Except.ok (reFold r t)

/-- `json.NewDecoder(body).Decode(r)` for `r : *ResponseError`: like
`reUnmarshal` but a `Decoder` reads one value and tolerates trailing data. -/
def decoderDecodeRE (r : ResponseError) (b : List Char) :
    Except (List Char) ResponseError :=
  match parseVal (2 * b.length + 2) b with
  | none => Except.error "unexpected end of JSON input".toList
  | some (j, _) =>
    match strMapOfJson j with
    | Except.error e => Except.error e
    | Except.ok t => Except.ok (reFold r t)

theorem reFold_status (t : List (List Char × List Char)) :
    ∀ r : ResponseError, (reFold r t).status = r.status := by
  induction t with
  | nil => intro r; rfl
  | cons kv t ih =>
    intro r
    obtain ⟨k, v⟩ := kv
    simp only [reFold]
    rw [ih]
    split
    · rfl
    · split <;> rfl

/-- `jsonDecodeE` agrees with the strict round trip. -/
theorem jsonDecodeE_enc (v : Json) : jsonDecodeE (encJson v) = Except.ok v := by
  unfold jsonDecodeE
  have hb : jsize v ≤ 2 * (encJson v).length + 2 := by
    have h := (size_le (jsize v)).1 v (le_refl _)
    omega
  have := (parse_enc (2 * (encJson v).length + 2)).1 v [] hb rfl
  rw [List.append_nil] at this
  rw [this]
  rfl

/- ## checkResponseStatus (docusign.go lines 324-337; the copy in
recipients.go lines 2320-2332 differs only in not closing the body)

Go source:
  func checkResponseStatus(res *http.Response) (err error) {
      if res.StatusCode != 200 && res.StatusCode != 201 {
          re := &ResponseError{Status: res.StatusCode}
          if res.ContentLength > 0 {
              defer res.Body.Close()
              err = json.NewDecoder(res.Body).Decode(re)
              if err != nil { re.Description = err.Error() }
          }
          err = re
      }
      return
  }

Note the test is `res.ContentLength > 0`, not "the body is non-empty":
`http.Response.ContentLength` is `-1` when the length is unknown (e.g. a
chunked response), in which case a non-empty body is never decoded. -/

/-- The parts of `http.Response` that `checkResponseStatus` reads. -/
structure HttpResponse where
  statusCode : Int
  contentLength : Int
  body : List Char
deriving DecidableEq, Repr

/-- Model of `checkResponseStatus`: `none` is a nil error (success). -/
def checkResponseStatus (res : HttpResponse) : Option ResponseError :=
  if res.statusCode ≠ 200 ∧ res.statusCode ≠ 201 then
    some
      (let re0 : ResponseError := { err := [], description := [], status := res.statusCode }
       if 0 < res.contentLength then
         match decoderDecodeRE re0 res.body with
         | Except.ok re' => re'
         | Except.error msg => { re0 with description := msg }
       else re0)
  else none

/- ## The dispatch select of (*Service).do and (*Service).doPdf
(docusign.go lines 441-470 and 371-391)

Go source (the part after the request is built):
  resCh := make(chan error)
  go func() {
      res, err := s.client.Do(req)
      if err == nil {
          if err = checkResponseStatus(res); err == nil {
              ... decode into returnValue ... (err = decode error or nil)
          }
      }
      resCh <- err
  }()
  select {
  case <-s.ctx.Done():
      err = s.ctx.Err()
      if t, ok := s.client.Transport.(canceler); ok {
          t.CancelRequest(req)
      }
  case err = <-resCh:
  }
  return err -/

/-- The error value `(*Service).do` can return. -/
inductive DoError where
  | transport (msg : List Char)
  | vendor (re : ResponseError)
  | decodeFail (msg : List Char)
  | ctxErr (msg : List Char)
deriving DecidableEq, Repr

/-- What `s.client.Do(req)` produced. -/
inductive ClientResult where
  | netErr (msg : List Char)
  | response (res : HttpResponse)
deriving DecidableEq, Repr

/-- The value the goroutine sends on `resCh` (`none` = nil error, meaning the
decoded result was stored in `returnValue`).  `decodeOutcome` is the error of
the JSON decode of the successful response body, if any. -/
def goroutineSend (cr : ClientResult) (decodeOutcome : Option (List Char)) :
    Option DoError :=
  match cr with
  | ClientResult.netErr m => some (DoError.transport m)
  | ClientResult.response res =>
    match checkResponseStatus res with
    | some re => some (DoError.vendor re)
    | none => decodeOutcome.map DoError.decodeFail

/-- The `select` at the end of `do`/`doPdf`.  `ctxDoneFirst` records the
real-time fact "the context's Done channel was ready before the goroutine's
send when the select committed"; `hasCanceler` records whether
`s.client.Transport` implements the `canceler` interface.  Result: the error
`do` returns, and whether `CancelRequest` was invoked on the transport. -/
def doSelect (ctxDoneFirst : Bool) (hasCanceler : Bool) (ctxErrMsg : List Char)
    (goErr : Option DoError) : Option DoError × Bool :=
  if ctxDoneFirst then (some (DoError.ctxErr ctxErrMsg), hasCanceler)
  else (goErr, false)

/- ### Claim theorems for the error decoder and response classification -/

/-- C5: decoding either vendor error shape yields the same normalized pair. -/
theorem response_error_two_shapes (X Y : List Char) (r0 : ResponseError) :
    reUnmarshal r0 (encJson (Json.jobj
        [("errorCode".toList, Json.jstr X), ("message".toList, Json.jstr Y)])) =
      Except.ok { err := X, description := Y, status := r0.status } ∧
    reUnmarshal r0 (encJson (Json.jobj
        [("error".toList, Json.jstr X), ("error_description".toList, Json.jstr Y)])) =
      Except.ok { err := X, description := Y, status := r0.status } := by
  constructor
  · unfold reUnmarshal
    rw [jsonDecodeE_enc]
    rfl
  · unfold reUnmarshal
    rw [jsonDecodeE_enc]
    rfl

/-- Is the JSON value one the string-map decoder rejects (number, boolean,
array, or nested object — everything but a string or `null`)? -/
def badStrVal : Json → Bool
  | Json.jnum _ => true
  | Json.jbool _ => true
  | Json.jarr _ => true
  | Json.jobj _ => true
  | _ => false

/-- Is the key one of the four the fold recognizes? -/
def reKnownKey (k : List Char) : Bool :=
  k = "errorCode".toList || k = "error".toList || k = "message".toList ||
    k = "error_description".toList

theorem jsonStrMapAux_error (ms : List (List Char × Json)) :
    ∀ acc, (∃ kv ∈ ms, badStrVal kv.2 = true) →
      ∃ e, jsonStrMapAux ms acc = Except.error e := by
  induction ms with
  | nil =>
    intro acc h
    obtain ⟨kv, hmem, _⟩ := h
    exact absurd hmem (List.not_mem_nil kv)
  | cons kv0 ms ih =>
    intro acc h
    obtain ⟨k0, v0⟩ := kv0
    cases v0 with
    | jstr sv =>
      obtain ⟨kv, hmem, hbad⟩ := h
      rcases List.mem_cons.mp hmem with rfl | hmem'
      · exact absurd hbad (by simp [badStrVal])
      · exact ih (mapInsert k0 sv acc) ⟨kv, hmem', hbad⟩
    | null =>
      obtain ⟨kv, hmem, hbad⟩ := h
      rcases List.mem_cons.mp hmem with rfl | hmem'
      · exact absurd hbad (by simp [badStrVal])
      · exact ih (mapInsert k0 [] acc) ⟨kv, hmem', hbad⟩
    | jnum n => exact ⟨_, rfl⟩
    | jbool b => exact ⟨_, rfl⟩
    | jarr es => exact ⟨_, rfl⟩
    | jobj mbrs => exact ⟨_, rfl⟩

theorem reFold_skip (k : List Char) (hk : reKnownKey k = false) (v : List Char) :
    ∀ t1 t2 (r0 : ResponseError),
      reFold r0 (t1 ++ (k, v) :: t2) = reFold r0 (t1 ++ t2) := by
  have hks : ¬(k = "errorCode".toList ∨ k = "error".toList) ∧
      ¬(k = "message".toList ∨ k = "error_description".toList) := by
    simp only [reKnownKey, Bool.or_eq_false_iff, decide_eq_false_iff_not] at hk
    tauto
  intro t1
  induction t1 with
  | nil =>
    intro t2 r0
    simp only [List.nil_append, reFold, if_neg hks.1, if_neg hks.2]
  | cons a t1 ih =>
    intro t2 r0
    obtain ⟨ka, va⟩ := a
    simp only [List.cons_append, reFold]
    exact ih t2 _

/-- C10: `ResponseError.UnmarshalJSON` decodes through `map[string]string`:
an object with any non-string member (number, boolean, array or nested
object) is a decode error, and keys outside the four recognized ones are
ignored by the fold, leaving the fields unchanged. -/
theorem response_error_nonstring_member_rejected (r0 : ResponseError)
    (ms : List (List Char × Json)) (h : ∃ kv ∈ ms, badStrVal kv.2 = true) :
    (∃ e, reUnmarshal r0 (encJson (Json.jobj ms)) = Except.error e) ∧
    (∀ t1 k v t2, reKnownKey k = false →
      reFold r0 (t1 ++ (k, v) :: t2) = reFold r0 (t1 ++ t2)) := by
  constructor
  · unfold reUnmarshal
    rw [jsonDecodeE_enc]
    obtain ⟨e, he⟩ := jsonStrMapAux_error ms [] h
    show ∃ e2, (match strMapOfJson (Json.jobj ms) with
      | Except.error e3 => Except.error e3
      | Except.ok t => Except.ok (reFold r0 t)) = Except.error e2
    rw [show strMapOfJson (Json.jobj ms) = jsonStrMapAux ms [] from rfl, he]
    exact ⟨e, rfl⟩
  · intro t1 k v t2 hk
    exact reFold_skip k hk v t1 t2 r0

/-- Witness for C10 at a concrete object `{"a": 5, "errorCode": "X"}`. -/
theorem response_error_nonstring_member_rejected_witness :
    (∃ e, reUnmarshal { err := [], description := [], status := 400 }
        (encJson (Json.jobj [("a".toList, Json.jnum 5),
          ("errorCode".toList, Json.jstr "X".toList)])) = Except.error e) ∧
    (∀ t1 k v t2, reKnownKey k = false →
      reFold { err := [], description := [], status := 400 } (t1 ++ (k, v) :: t2) =
        reFold { err := [], description := [], status := 400 } (t1 ++ t2)) :=
  response_error_nonstring_member_rejected
    { err := [], description := [], status := 400 }
    [("a".toList, Json.jnum 5), ("errorCode".toList, Json.jstr "X".toList)]
    ⟨("a".toList, Json.jnum 5), by simp, rfl⟩

theorem decoderDecodeRE_status {r : ResponseError} {b : List Char}
    {re' : ResponseError} (h : decoderDecodeRE r b = Except.ok re') :
    re'.status = r.status := by
  unfold decoderDecodeRE at h
  split at h
  · exact absurd h (by simp)
  · split at h
    · exact absurd h (by simp)
    · injection h with h
      subst h
      exact reFold_status _ r

/-- A decodable vendor error body, used as a concrete input below. -/
def cexBody : List Char := "\x7b\"errorCode\":\"X\",\"message\":\"Y\"\x7d".toList

/-- A 400 response with unknown length (`ContentLength = -1`, e.g. chunked)
but a non-empty, decodable body. -/
def cexResponse : HttpResponse := { statusCode := 400, contentLength := -1, body := cexBody }

/-- C4 (counterexample): `cexResponse` is returned with the status alone
although its body is non-empty and decodable — the code tests
`ContentLength > 0`, not body non-emptiness. -/
theorem check_response_status_contentlength_cex :
    checkResponseStatus cexResponse = some { err := [], description := [], status := 400 } ∧
    cexResponse.body ≠ [] ∧
    decoderDecodeRE { err := [], description := [], status := 400 } cexResponse.body =
      Except.ok { err := "X".toList, description := "Y".toList, status := 400 } := by
  refine ⟨rfl, by decide, ?_⟩
  rfl

/-- C4 (amended): success exactly on 200/201; otherwise a `ResponseError`
carrying the status; the body is decoded when `ContentLength > 0` (status
alone otherwise, even if the body is non-empty); a decode failure substitutes
the failure's message as the description while keeping the status. -/
theorem check_response_status_amended (res : HttpResponse) :
    (checkResponseStatus res = none ↔ (res.statusCode = 200 ∨ res.statusCode = 201)) ∧
    (∀ re, checkResponseStatus res = some re → re.status = res.statusCode) ∧
    (res.statusCode ≠ 200 → res.statusCode ≠ 201 → 0 < res.contentLength →
      checkResponseStatus res = some
        (match decoderDecodeRE { err := [], description := [], status := res.statusCode }
            res.body with
         | Except.ok re' => re'
         | Except.error msg =>
           { err := [], description := msg, status := res.statusCode })) ∧
    (res.statusCode ≠ 200 → res.statusCode ≠ 201 → res.contentLength ≤ 0 →
      checkResponseStatus res =
        some { err := [], description := [], status := res.statusCode }) := by
  refine ⟨?_, ?_, ?_, ?_⟩
  · unfold checkResponseStatus
    by_cases h2 : res.statusCode ≠ 200 ∧ res.statusCode ≠ 201
    · rw [if_pos h2]
      constructor
      · intro hc
        exact absurd hc (by simp)
      · intro hor
        rcases hor with hor | hor
        · exact absurd hor h2.1
        · exact absurd hor h2.2
    · rw [if_neg h2]
      constructor
      · intro _
        by_cases h200 : res.statusCode = 200
        · exact Or.inl h200
        · right
          by_cases h201 : res.statusCode = 201
          · exact h201
          · exact absurd ⟨h200, h201⟩ h2
      · intro _
        rfl
  · intro re h
    unfold checkResponseStatus at h
    split at h
    · injection h with h
      subst h
      show (if 0 < res.contentLength then
        match decoderDecodeRE { err := [], description := [], status := res.statusCode }
            res.body with
        | Except.ok re' => re'
        | Except.error msg =>
          { err := [], description := msg, status := res.statusCode }
        else { err := [], description := [], status := res.statusCode }).status =
        res.statusCode
      split
      · split
        · next re' heq => exact decoderDecodeRE_status heq
        · rfl
      · rfl
    · exact absurd h (by simp)
  · intro h200 h201 hcl
    unfold checkResponseStatus
    rw [if_pos ⟨h200, h201⟩, if_pos hcl]
  · intro h200 h201 hcl
    unfold checkResponseStatus
    rw [if_pos ⟨h200, h201⟩, if_neg (by omega)]

/-- Witness for C4's amended theorem at a concrete 404 response with a
positive `ContentLength` and an undecodable body, and at an empty response. -/
theorem check_response_status_amended_witness :
    checkResponseStatus { statusCode := 404, contentLength := 9, body := "not json!".toList } =
      some (match decoderDecodeRE { err := [], description := [], status := (404 : Int) }
          "not json!".toList with
        | Except.ok re' => re'
        | Except.error msg => { err := [], description := msg, status := (404 : Int) }) ∧
    checkResponseStatus { statusCode := 500, contentLength := 0, body := [] } =
      some { err := [], description := [], status := 500 } :=
  ⟨(check_response_status_amended
      { statusCode := 404, contentLength := 9, body := "not json!".toList }).2.2.1
      (by decide) (by decide) (by decide),
   (check_response_status_amended
      { statusCode := 500, contentLength := 0, body := [] }).2.2.2
      (by decide) (by decide) (by decide)⟩

/-- C8 (counterexample): when the context fires first but the transport does
not implement `CancelRequest`, the context error is returned yet no abort of
the in-flight request happens — the cancel is conditional on the `canceler`
type assertion. -/
theorem do_select_no_cancel_without_canceler :
    (doSelect true false "context canceled".toList none).2 = false ∧
    (doSelect true false "context canceled".toList none).1 =
      some (DoError.ctxErr "context canceled".toList) :=
  ⟨rfl, rfl⟩

/-- C8 (amended): if the context is done before the goroutine's send, the
call returns the context's error — never the goroutine's value, in particular
never a nil error carrying a decoded result — and `CancelRequest` is invoked exactly
when the transport implements the `canceler` interface; otherwise the
goroutine's value is returned. -/
theorem do_select_amended (hasCanceler : Bool) (ctxErrMsg : List Char)
    (cr : ClientResult) (dec : Option (List Char)) :
    (doSelect true hasCanceler ctxErrMsg (goroutineSend cr dec)).1 =
      some (DoError.ctxErr ctxErrMsg) ∧
    (doSelect true hasCanceler ctxErrMsg (goroutineSend cr dec)).1 ≠ none ∧
    (doSelect true hasCanceler ctxErrMsg (goroutineSend cr dec)).2 = hasCanceler ∧
    (doSelect false hasCanceler ctxErrMsg (goroutineSend cr dec)).1 =
      goroutineSend cr dec ∧
    (doSelect false hasCanceler ctxErrMsg (goroutineSend cr dec)).2 = false := by
  refine ⟨rfl, by simp [doSelect], rfl, rfl, rfl⟩

/- ## Credentials and Authorize (C7)

v1 (docusign.go): `OauthCredential.Authorize` (lines 67-73) and
`Config.Authorize` (lines 182-193) only set headers.
v2 (recipients.go): `OauthCredential.Authorize` (lines 2125-2139) and
`Config.Authorize` (lines 2244-2256) first resolve the request URL via
`dsResolveURL` (lines 2092-2102), then set headers.

Go's `http.Header` is a map; header state is modelled as a function
`String → Option String`, with `Header.Set` as pointwise update (every header
written by this code is single-valued). -/

/-- v2 `OauthCredential` (recipients.go lines 2114-2122). -/
structure OauthCredentialV2 where
  accountId : String
  accessToken : String
  scope : String
  tokenType : String
  host : String
deriving DecidableEq, Repr

/-- v2 `Config` (recipients.go lines 2165-2173). -/
structure ConfigV2 where
  accountId : String
  integratorKey : String
  userName : String
  password : String
  host : String
deriving DecidableEq, Repr

/-- A value of the v2 `Credential` interface: one of the two implementations
defined by the repository. -/
inductive CredV2 where
  | oauth (o : OauthCredentialV2)
  | config (c : ConfigV2)
deriving DecidableEq, Repr

/-- v2 `Service` (recipients.go lines 2334-2339). -/
structure ServiceV2 where
  credential : CredV2
  onBehalfOf : String
deriving DecidableEq, Repr

/-- Header state of a request. -/
def Headers : Type := String → Option String

/-- `req.Header.Set k v`. -/
def hset (h : Headers) (k v : String) : Headers :=
  fun k' => if k' = k then some v else h k'

/-- The parts of `url.URL` the repository touches. -/
structure GoURL where
  scheme : String
  host : String
  path : String
deriving DecidableEq, Repr

/-- An outgoing request: its URL and header map. -/
structure Request where
  url : GoURL
  headers : Headers

/-- `strings.HasPrefix s p`. -/
def goHasPfx (s p : String) : Bool := p.toList.isPrefixOf s.toList

/-- v2 `dsResolveURL` (recipients.go lines 2092-2102): the base URL is
`https://{host}/restapi/v2`; an absolute path (leading `/`) is appended to the
base path, a relative one goes under `/accounts/{accountID}/`. -/
def dsResolveURL (ref : GoURL) (host accountID : String) : GoURL :=
  { scheme := "https", host := host,
    path :=
      if goHasPfx ref.path "/" then "/restapi/v2" ++ ref.path
      else "/restapi/v2" ++ "/accounts/" ++ accountID ++ "/" ++ ref.path }

/-- v1 `OauthCredential` (docusign.go lines 55-64). -/
structure OauthCredentialV1 where
  accessToken : String
  scope : String
  tokenType : String
  onBehalfOfUser : String
  accountId : String
deriving DecidableEq, Repr

/-- v1 `OauthCredential.Authorize` (docusign.go lines 67-73): set the
`Authorization` header, then the impersonation header when on-behalf-of is
non-empty. -/
def oauthAuthorizeV1 (o : OauthCredentialV1) (req : Request) : Request :=
  if 0 < o.onBehalfOfUser.length then
    { req with headers := hset (hset req.headers "Authorization"
        ("bearer " ++ o.accessToken)) "X-DocuSign-Act-As-User" o.onBehalfOfUser }
  else
    { req with headers := hset req.headers "Authorization" ("bearer " ++ o.accessToken) }

/-- v1 `Config` (docusign.go lines 104-110). -/
structure ConfigV1 where
  integratorKey : String
  userName : String
  password : String
  onBehalfOfUser : String
  accountId : String
deriving DecidableEq, Repr

/-- The XML credential header value built by v1 `Config.Authorize`. -/
def configAuthStringV1 (c : ConfigV1) : String :=
  "<DocuSignCredentials>" ++
    (if 0 < c.onBehalfOfUser.length then
      "<SendOnBehalfOf>" ++ c.onBehalfOfUser ++ "</SendOnBehalfOf>"
     else "") ++
    "<Username>" ++ c.userName ++ "</Username><Password>" ++ c.password ++
    "</Password><IntegratorKey>" ++ c.integratorKey ++
    "</IntegratorKey></DocuSignCredentials>"

/-- v1 `Config.Authorize` (docusign.go lines 182-193). -/
def configAuthorizeV1 (c : ConfigV1) (req : Request) : Request :=
  { req with headers := hset req.headers "X-DocuSign-Authentication" (configAuthStringV1 c) }

/-- The `Authorization` header value of v2 `OauthCredential.Authorize`
(`bearer` unless a token type is set). -/
def oauthAuthHeaderV2 (o : OauthCredentialV2) : String :=
  if o.tokenType = "" then "bearer " ++ o.accessToken
  else o.tokenType ++ " " ++ o.accessToken

/-- v2 `OauthCredential.Authorize` (recipients.go lines 2125-2139): resolve
the URL, set `Authorization` (honouring `TokenType`), then the impersonation
header when on-behalf-of is non-empty. -/
def oauthAuthorizeV2 (o : OauthCredentialV2) (req : Request) (onBehalfOf : String) : Request :=
  if onBehalfOf ≠ "" then
    { url := dsResolveURL req.url o.host o.accountId,
      headers := hset (hset req.headers "Authorization" (oauthAuthHeaderV2 o))
        "X-DocuSign-Act-As-User" onBehalfOf }
  else
    { url := dsResolveURL req.url o.host o.accountId,
      headers := hset req.headers "Authorization" (oauthAuthHeaderV2 o) }

/-- The XML credential header value built by v2 `Config.Authorize`. -/
def configAuthStringV2 (c : ConfigV2) (onBehalfOf : String) : String :=
  "<DocuSignCredentials>" ++
    (if onBehalfOf ≠ "" then "<SendOnBehalfOf>" ++ onBehalfOf ++ "</SendOnBehalfOf>"
     else "") ++
    "<Username>" ++ c.userName ++ "</Username><Password>" ++ c.password ++
    "</Password><IntegratorKey>" ++ c.integratorKey ++
    "</IntegratorKey></DocuSignCredentials>"

/-- v2 `Config.Authorize` (recipients.go lines 2244-2256). -/
def configAuthorizeV2 (c : ConfigV2) (req : Request) (onBehalfOf : String) : Request :=
  { url := dsResolveURL req.url c.host c.accountId,
    headers := hset req.headers "X-DocuSign-Authentication"
      (configAuthStringV2 c onBehalfOf) }

theorem hset_hset_same (h : Headers) (k v : String) :
    hset (hset h k v) k v = hset h k v := by
  funext k'
  simp only [hset]
  split <;> rfl

theorem hset_hset_other (h : Headers) (k1 v1 k2 v2 : String) (hk : k1 ≠ k2) :
    hset (hset (hset h k1 v1) k2 v2) k1 v1 = hset (hset h k1 v1) k2 v2 := by
  funext k'
  simp only [hset]
  by_cases h1 : k' = k1
  · subst h1
    rw [if_pos rfl, if_neg hk, if_pos rfl]
  · rw [if_neg h1]

/-- A sample v2 oauth credential. -/
def cexCred : OauthCredentialV2 :=
  { accountId := "A", accessToken := "tok", scope := "", tokenType := "", host := "h" }

/-- A request with a relative path, as the endpoint wrappers build them. -/
def cexRequest : Request :=
  { url := { scheme := "", host := "", path := "envelopes" }, headers := fun _ => none }

/-- C7 (counterexample): applying the v2 `OauthCredential.Authorize` twice
does not leave the request's URL unchanged — `dsResolveURL` prepends the base
path again on the second call. -/
theorem authorize_v2_not_idempotent_on_url :
    (oauthAuthorizeV2 cexCred (oauthAuthorizeV2 cexCred cexRequest "") "").url ≠
      (oauthAuthorizeV2 cexCred cexRequest "").url ∧
    (oauthAuthorizeV2 cexCred cexRequest "").url.path = "/restapi/v2/accounts/A/envelopes" ∧
    (oauthAuthorizeV2 cexCred (oauthAuthorizeV2 cexCred cexRequest "") "").url.path =
      "/restapi/v2/restapi/v2/accounts/A/envelopes" := by
  refine ⟨?_, rfl, rfl⟩
  intro h
  have := congrArg GoURL.path h
  simp only [oauthAuthorizeV2, dsResolveURL, cexCred, cexRequest] at this
  exact absurd this (by decide)

/-- Every path produced by `dsResolveURL` starts with `/`. -/
theorem dsResolveURL_path_slash (ref : GoURL) (host accountID : String) :
    goHasPfx (dsResolveURL ref host accountID).path "/" = true := by
  unfold dsResolveURL goHasPfx
  split
  · rw [show ("/restapi/v2" ++ ref.path).toList =
      '/' :: ("restapi/v2".toList ++ ref.path.toList) from rfl]
    rfl
  · rw [show ("/restapi/v2" ++ "/accounts/" ++ accountID ++ "/" ++ ref.path).toList =
      '/' :: (("restapi/v2" ++ "/accounts/" ++ accountID ++ "/" ++ ref.path).toList) from rfl]
    rfl

/-- C7 (amended): header-setting is idempotent for every credential variant;
the v1 variants (which never touch the URL) are fully idempotent; for the v2
variants the URL resolution is not idempotent — a second `Authorize` prepends
the base path `/restapi/v2` to the already-resolved path (scheme and host are
unchanged). -/
theorem oauthAuthorizeV2_url (o : OauthCredentialV2) (req : Request) (u : String) :
    (oauthAuthorizeV2 o req u).url = dsResolveURL req.url o.host o.accountId := by
  unfold oauthAuthorizeV2
  split <;> rfl

theorem configAuthorizeV2_url (c : ConfigV2) (req : Request) (u : String) :
    (configAuthorizeV2 c req u).url = dsResolveURL req.url c.host c.accountId := rfl

/-- Resolving an already-resolved URL prepends the base path again. -/
theorem dsResolveURL_twice (ref : GoURL) (host accountID : String) :
    dsResolveURL (dsResolveURL ref host accountID) host accountID =
      { scheme := "https", host := host,
        path := "/restapi/v2" ++ (dsResolveURL ref host accountID).path } := by
  rw [show dsResolveURL (dsResolveURL ref host accountID) host accountID =
    { scheme := "https", host := host,
      path :=
        if goHasPfx (dsResolveURL ref host accountID).path "/" then
          "/restapi/v2" ++ (dsResolveURL ref host accountID).path
        else "/restapi/v2" ++ "/accounts/" ++ accountID ++ "/" ++
          (dsResolveURL ref host accountID).path } from rfl]
  rw [if_pos (by rw [dsResolveURL_path_slash])]

/-- C7 (amended): header-setting is idempotent for every credential variant;
the v1 variants (which never touch the URL) are fully idempotent; for the v2
variants the URL resolution is not idempotent — a second `Authorize` prepends
the base path `/restapi/v2` to the already-resolved path (scheme and host are
unchanged). -/
theorem authorize_idempotence (req : Request) (u : String) :
    (∀ o : OauthCredentialV1, oauthAuthorizeV1 o (oauthAuthorizeV1 o req) =
      oauthAuthorizeV1 o req) ∧
    (∀ c : ConfigV1, configAuthorizeV1 c (configAuthorizeV1 c req) =
      configAuthorizeV1 c req) ∧
    (∀ o : OauthCredentialV2,
      (oauthAuthorizeV2 o (oauthAuthorizeV2 o req u) u).headers =
        (oauthAuthorizeV2 o req u).headers ∧
      (oauthAuthorizeV2 o (oauthAuthorizeV2 o req u) u).url.scheme =
        (oauthAuthorizeV2 o req u).url.scheme ∧
      (oauthAuthorizeV2 o (oauthAuthorizeV2 o req u) u).url.host =
        (oauthAuthorizeV2 o req u).url.host ∧
      (oauthAuthorizeV2 o (oauthAuthorizeV2 o req u) u).url.path =
        "/restapi/v2" ++ (oauthAuthorizeV2 o req u).url.path) ∧
    (∀ c : ConfigV2,
      (configAuthorizeV2 c (configAuthorizeV2 c req u) u).headers =
        (configAuthorizeV2 c req u).headers ∧
      (configAuthorizeV2 c (configAuthorizeV2 c req u) u).url.path =
        "/restapi/v2" ++ (configAuthorizeV2 c req u).url.path) := by
  refine ⟨?_, ?_, ?_, ?_⟩
  · intro o
    unfold oauthAuthorizeV1
    split
    · rw [hset_hset_other req.headers "Authorization" ("bearer " ++ o.accessToken)
        "X-DocuSign-Act-As-User" o.onBehalfOfUser (by decide), hset_hset_same]
    · rw [hset_hset_same]
  · intro c
    exact congrArg (fun hh => ({ url := req.url, headers := hh } : Request))
      (hset_hset_same req.headers "X-DocuSign-Authentication" (configAuthStringV1 c))
  · intro o
    refine ⟨?_, ?_, ?_, ?_⟩
    · by_cases hu : u ≠ ""
      · have e1 : ∀ r : Request, oauthAuthorizeV2 o r u =
            { url := dsResolveURL r.url o.host o.accountId,
              headers := hset (hset r.headers "Authorization" (oauthAuthHeaderV2 o))
                "X-DocuSign-Act-As-User" u } := by
          intro r
          unfold oauthAuthorizeV2
          rw [if_pos hu]
        rw [e1, e1]
        show hset (hset (hset (hset req.headers "Authorization" (oauthAuthHeaderV2 o))
            "X-DocuSign-Act-As-User" u) "Authorization" (oauthAuthHeaderV2 o))
            "X-DocuSign-Act-As-User" u = _
        rw [hset_hset_other req.headers "Authorization" (oauthAuthHeaderV2 o)
          "X-DocuSign-Act-As-User" u (by decide), hset_hset_same]
      · have e1 : ∀ r : Request, oauthAuthorizeV2 o r u =
            { url := dsResolveURL r.url o.host o.accountId,
              headers := hset r.headers "Authorization" (oauthAuthHeaderV2 o) } := by
          intro r
          unfold oauthAuthorizeV2
          rw [if_neg hu]
        rw [e1, e1]
        show hset (hset req.headers "Authorization" (oauthAuthHeaderV2 o))
          "Authorization" (oauthAuthHeaderV2 o) = _
        rw [hset_hset_same]
    · rw [oauthAuthorizeV2_url, oauthAuthorizeV2_url, dsResolveURL_twice]
      rfl
    · rw [oauthAuthorizeV2_url, oauthAuthorizeV2_url, dsResolveURL_twice]
      rfl
    · rw [oauthAuthorizeV2_url, oauthAuthorizeV2_url, dsResolveURL_twice]
  · intro c
    refine ⟨?_, ?_⟩
    · exact hset_hset_same req.headers "X-DocuSign-Authentication"
        (configAuthStringV2 c u)
    · rw [configAuthorizeV2_url, configAuthorizeV2_url, dsResolveURL_twice]

/- ## DSTime (C6)

Two versions exist:
* src/unnamed/part_000 lines 68-76 (v0):
    func (d DSTime) Time() (time.Time, error) {
        if strings.HasSuffix(string(d), "Z") {
            return time.Parse(time.RFC3339Nano, string(d))
        }
        return time.Parse("2006-01-02T15:04:05.999999999", string(d))
    }
* src/unnamed/part_001 lines 20-28 (v1): the same dispatch, but errors are
  discarded (`tm, _ = time.Parse(...)`), returning the zero time on failure.

`time.Parse` is modelled for the two layouts used: a common core
`2006-01-02T15:04:05` with an optional fractional second (at most nine
digits are kept), then either the `Z07:00` zone designator (RFC3339Nano) or
nothing (the fixed local pattern).  The components are range-checked as
`time.Parse` does (month 1-12, day valid for the month including leap years,
hour < 24, minute/second < 60); the whole input must be consumed. -/

/-- A parsed time value: calendar components plus a zone offset in seconds. -/
structure GoTime where
  year : Nat
  month : Nat
  day : Nat
  hour : Nat
  minute : Nat
  second : Nat
  nsec : Nat
  offsetSeconds : Int
deriving DecidableEq, Repr

/-- The zero `time.Time`: January 1, year 1, 00:00:00 UTC. -/
def zeroGoTime : GoTime :=
  { year := 1, month := 1, day := 1, hour := 0, minute := 0, second := 0,
    nsec := 0, offsetSeconds := 0 }

/-- Gregorian leap-year rule. -/
def isLeap (y : Nat) : Bool := (y % 4 = 0 && y % 100 ≠ 0) || y % 400 = 0

/-- Days in a month. -/
def daysInMonth (m y : Nat) : Nat :=
  if m = 2 then (if isLeap y then 29 else 28)
  else if m = 4 ∨ m = 6 ∨ m = 9 ∨ m = 11 then 30
  else 31

/-- Two zero-padded decimal digits. -/
def parse2d : List Char → Option (Nat × List Char)
  | a :: b :: r =>
    if isDigitCh a && isDigitCh b then some (10 * digitVal a + digitVal b, r) else none
  | _ => none

/-- Four decimal digits (the year). -/
def parse4d : List Char → Option (Nat × List Char)
  | a :: b :: c :: d :: r =>
    if isDigitCh a && isDigitCh b && isDigitCh c && isDigitCh d then
      some (digitVal a * 1000 + digitVal b * 100 + digitVal c * 10 + digitVal d, r)
    else none
  | _ => none

/-- Optional fractional second: a dot followed by at least one digit; at most
nine digits contribute, scaled to nanoseconds. -/
def parseFracOpt : List Char → Nat × List Char
  | '.' :: r =>
    let p := takeDigits r
    if p.1 = [] then (0, '.' :: r)
    else (digitsToNat (p.1.take 9) * 10 ^ (9 - min 9 p.1.length), p.2)
  | s => (0, s)

/-- The date/time components shared by both layouts. -/
structure DateParts where
  year : Nat
  month : Nat
  day : Nat
  hour : Nat
  minute : Nat
  second : Nat
  nsec : Nat
deriving DecidableEq, Repr

/-- Parse `2006-01-02T15:04:05` with optional fractional second. -/
def parseCore (s0 : List Char) : Option (DateParts × List Char) := do
  let (yr, s1) ← parse4d s0
  let s2 ← stripCh '-' s1
  let (mo, s3) ← parse2d s2
  let s4 ← stripCh '-' s3
  let (dy, s5) ← parse2d s4
  let s6 ← stripCh 'T' s5
  let (hh, s7) ← parse2d s6
  let s8 ← stripCh ':' s7
  let (mi, s9) ← parse2d s8
  let s10 ← stripCh ':' s9
  let (sec, s11) ← parse2d s10
  let f := parseFracOpt s11
  some ({ year := yr, month := mo, day := dy, hour := hh, minute := mi,
          second := sec, nsec := f.1 }, f.2)

/-- `time.Parse`'s range validation of the components. -/
def validParts (p : DateParts) : Bool :=
  1 ≤ p.month && p.month ≤ 12 && 1 ≤ p.day && p.day ≤ daysInMonth p.month p.year &&
    p.hour < 24 && p.minute < 60 && p.second < 60

/-- Build the time value. -/
def mkTime (p : DateParts) (offsetSeconds : Int) : GoTime :=
  { year := p.year, month := p.month, day := p.day, hour := p.hour,
    minute := p.minute, second := p.second, nsec := p.nsec,
    offsetSeconds := offsetSeconds }

/-- `time.Parse(time.RFC3339Nano, s)`: the core followed by `Z` or a
`±hh:mm` zone offset, consuming the whole input. -/
def parseRFC3339Nano (s : List Char) : Option GoTime := do
  let (p, r) ← parseCore s
  let offs : Int ←
    match r with
    | ['Z'] => some 0
    | '+' :: h1 :: h2 :: ':' :: m1 :: m2 :: [] =>
      if isDigitCh h1 && isDigitCh h2 && isDigitCh m1 && isDigitCh m2 then
        some ((((10 * digitVal h1 + digitVal h2) * 60 +
          (10 * digitVal m1 + digitVal m2)) * 60 : Nat) : Int)
      else none
    | '-' :: h1 :: h2 :: ':' :: m1 :: m2 :: [] =>
      if isDigitCh h1 && isDigitCh h2 && isDigitCh m1 && isDigitCh m2 then
        some (-((((10 * digitVal h1 + digitVal h2) * 60 +
          (10 * digitVal m1 + digitVal m2)) * 60 : Nat) : Int))
      else none
    | _ => none
  if validParts p then some (mkTime p offs) else none

/-- `time.Parse("2006-01-02T15:04:05.999999999", s)`: the core alone,
consuming the whole input; the result carries no zone (offset 0, as Go
returns the time in UTC for a layout without zone information). -/
def parseLocalLayout (s : List Char) : Option GoTime := do
  let (p, r) ← parseCore s
  if r = [] ∧ validParts p = true then some (mkTime p 0) else none

/-- `strings.HasSuffix`. -/
def goHasSuffix (s p : List Char) : Bool := p.reverse.isPrefixOf s.reverse

/-- v0 `DSTime.Time` (part_000): dispatch on a trailing `Z`; `none` models a
non-nil error return. -/
def dsTimeTimeV0 (d : List Char) : Option GoTime :=
  if goHasSuffix d ['Z'] then parseRFC3339Nano d else parseLocalLayout d

/-- v1 `DSTime.Time` (part_001): same dispatch, the error discarded — the
zero time is returned when the selected parser rejects. -/
def dsTimeTimeV1 (d : List Char) : GoTime :=
  if goHasSuffix d ['Z'] then (parseRFC3339Nano d).getD zeroGoTime
  else (parseLocalLayout d).getD zeroGoTime

/-- C6: a string ending in `Z` is converted with the zoned
RFC3339-with-fractional-seconds parser, any other string with the fixed
local pattern, and the conversion fails exactly when the selected parser
rejects the input (v1 never fails, substituting the zero time). -/
theorem dstime_dispatch (d : List Char) :
    (goHasSuffix d ['Z'] = true →
      dsTimeTimeV0 d = parseRFC3339Nano d ∧
      dsTimeTimeV1 d = (parseRFC3339Nano d).getD zeroGoTime) ∧
    (goHasSuffix d ['Z'] = false →
      dsTimeTimeV0 d = parseLocalLayout d ∧
      dsTimeTimeV1 d = (parseLocalLayout d).getD zeroGoTime) ∧
    ((dsTimeTimeV0 d = none) ↔
      (if goHasSuffix d ['Z'] = true then parseRFC3339Nano d = none
       else parseLocalLayout d = none)) := by
  by_cases h : goHasSuffix d ['Z'] = true
  · refine ⟨fun _ => ⟨?_, ?_⟩, fun hc => absurd h (by simp [hc]), ?_⟩
    · simp [dsTimeTimeV0, h]
    · simp [dsTimeTimeV1, h]
    · simp [dsTimeTimeV0, h]
  · have h' : goHasSuffix d ['Z'] = false := by
      simpa using h
    refine ⟨fun hc => absurd hc (by simp [h']), fun _ => ⟨?_, ?_⟩, ?_⟩
    · simp [dsTimeTimeV0, h']
    · simp [dsTimeTimeV1, h']
    · simp [dsTimeTimeV0, h']

/-- Witness for C6 at concrete timestamps: a zoned one with a fractional
second, a local one, and an input only the zoned pattern matches though the
local parser is selected (so conversion fails). -/
theorem dstime_dispatch_witness :
    (goHasSuffix "2015-03-01T10:20:30.5Z".toList ['Z'] = true ∧
      dsTimeTimeV0 "2015-03-01T10:20:30.5Z".toList =
        parseRFC3339Nano "2015-03-01T10:20:30.5Z".toList ∧
      parseRFC3339Nano "2015-03-01T10:20:30.5Z".toList =
        some { year := 2015, month := 3, day := 1, hour := 10, minute := 20,
               second := 30, nsec := 500000000, offsetSeconds := 0 }) ∧
    (goHasSuffix "2015-03-01T10:20:30".toList ['Z'] = false ∧
      dsTimeTimeV0 "2015-03-01T10:20:30".toList =
        parseLocalLayout "2015-03-01T10:20:30".toList ∧
      parseLocalLayout "2015-03-01T10:20:30".toList =
        some { year := 2015, month := 3, day := 1, hour := 10, minute := 20,
               second := 30, nsec := 0, offsetSeconds := 0 }) ∧
    (dsTimeTimeV0 "2015-03-01T10:20:30+01:00".toList = none ∧
      parseRFC3339Nano "2015-03-01T10:20:30+01:00".toList ≠ none) :=
  ⟨⟨by decide, ((dstime_dispatch _).1 (by decide)).1, by decide⟩,
   ⟨by decide, ((dstime_dispatch _).2.1 (by decide)).1, by decide⟩,
   ⟨((dstime_dispatch "2015-03-01T10:20:30+01:00".toList).2.2).mpr (by decide),
    by decide⟩⟩

/- ## multiBody resource safety (C3)

v1 writer goroutine (docusign.go lines 482-527): on each file it creates the
part, copies the data, closes the file's `Data` when it implements
`io.Closer`, and advances `fcnt`; a part-creation failure aborts before the
close, a copy failure aborts after it.  The deferred function closes
`files[fcnt:]`.  When the payload part fails, no file was processed and the
defer closes them all.

v2 writer goroutine (recipients.go lines 2441-2483): the loop never closes;
the deferred function closes every file.

A file is modelled by whether its `Data` implements `io.Closer`; the
oracle says which operations fail. -/

/-- Which operations of a writer run fail. -/
structure MBOracle where
  payloadPresent : Bool
  payloadCreateFails : Bool
  payloadEncodeFails : Bool
  createPartFails : Nat → Bool
  copyFails : Nat → Bool

/-- Close events (file indices) for closing `files` (given by their
has-closer flags) from index `start` on, as the deferred loops do. -/
def closeFrom : List Bool → Nat → List Nat
  | [], _ => []
  | b :: rest, i => (if b then [i] else []) ++ closeFrom rest (i + 1)

/-- The v1 file loop from index `i`: returns (close events, final `fcnt`,
whether it aborted early). -/
def v1Loop (cp cf : Nat → Bool) : List Bool → Nat → List Nat × Nat × Bool
  | [], i => ([], i, false)
  | b :: rest, i =>
    if cp i then ([], i, true)
    else if cf i then ((if b then [i] else []), i + 1, true)
    else ((if b then [i] else []) ++ (v1Loop cp cf rest (i + 1)).1,
      (v1Loop cp cf rest (i + 1)).2.1, (v1Loop cp cf rest (i + 1)).2.2)

/-- All close events of one v1 writer run (loop closes, then the deferred
`files[fcnt:]` sweep). -/
def v1Run (files : List Bool) (o : MBOracle) : List Nat :=
  if o.payloadPresent && (o.payloadCreateFails || o.payloadEncodeFails) then
    closeFrom files 0
  else
    (v1Loop o.createPartFails o.copyFails files 0).1 ++
      closeFrom (files.drop (v1Loop o.createPartFails o.copyFails files 0).2.1)
        (v1Loop o.createPartFails o.copyFails files 0).2.1

/-- All close events of one v2 writer run: the deferred loop closes every
file exactly once on every exit path; the loop body never closes. -/
def v2Run (files : List Bool) (_ : MBOracle) : List Nat := closeFrom files 0

theorem closeFrom_append (l2 l1 : List Bool) :
    ∀ i, closeFrom (l1 ++ l2) i = closeFrom l1 i ++ closeFrom l2 (i + l1.length) := by
  induction l1 with
  | nil => intro i; simp [closeFrom]
  | cons b rest ih =>
    intro i
    show (if b then [i] else []) ++ closeFrom (rest ++ l2) (i + 1) =
      ((if b then [i] else []) ++ closeFrom rest (i + 1)) ++
        closeFrom l2 (i + (rest.length + 1))
    rw [ih (i + 1), show i + 1 + rest.length = i + (rest.length + 1) by omega,
      List.append_assoc]

theorem v1Loop_spec (cp cf : Nat → Bool) (files : List Bool) :
    ∀ i, i ≤ (v1Loop cp cf files i).2.1 ∧
      (v1Loop cp cf files i).2.1 - i ≤ files.length ∧
      (v1Loop cp cf files i).1 =
        closeFrom (files.take ((v1Loop cp cf files i).2.1 - i)) i := by
  induction files with
  | nil =>
    intro i
    refine ⟨le_refl i, by simp [v1Loop], by simp [v1Loop, closeFrom]⟩
  | cons b rest ih =>
    intro i
    have hv : v1Loop cp cf (b :: rest) i =
        (if cp i then ([], i, true)
         else if cf i then ((if b then [i] else []), i + 1, true)
         else ((if b then [i] else []) ++ (v1Loop cp cf rest (i + 1)).1,
           (v1Loop cp cf rest (i + 1)).2.1, (v1Loop cp cf rest (i + 1)).2.2)) := rfl
    by_cases h1 : cp i
    · rw [hv, if_pos h1]
      refine ⟨le_refl i, by simp, by simp [closeFrom]⟩
    · by_cases h2 : cf i
      · rw [hv, if_neg h1, if_pos h2]
        refine ⟨by show i ≤ i + 1; omega,
          by show i + 1 - i ≤ (b :: rest).length; simp only [List.length_cons]; omega, ?_⟩
        show (if b then [i] else []) = closeFrom ((b :: rest).take (i + 1 - i)) i
        rw [show i + 1 - i = 1 by omega]
        simp [closeFrom]
      · rw [hv, if_neg h1, if_neg h2]
        obtain ⟨ha, hb2, hc⟩ := ih (i + 1)
        refine ⟨by show i ≤ (v1Loop cp cf rest (i + 1)).2.1; omega,
          by show (v1Loop cp cf rest (i + 1)).2.1 - i ≤ (b :: rest).length
             simp only [List.length_cons]; omega, ?_⟩
        show (if b then [i] else []) ++ (v1Loop cp cf rest (i + 1)).1 =
          closeFrom ((b :: rest).take ((v1Loop cp cf rest (i + 1)).2.1 - i)) i
        rw [hc, show (v1Loop cp cf rest (i + 1)).2.1 - i =
          ((v1Loop cp cf rest (i + 1)).2.1 - (i + 1)) + 1 by omega]
        simp only [List.take_succ_cons, closeFrom]

theorem v1Run_eq_closeFrom (files : List Bool) (o : MBOracle) :
    v1Run files o = closeFrom files 0 := by
  unfold v1Run
  split
  · rfl
  · obtain ⟨ha, hb, hc⟩ := v1Loop_spec o.createPartFails o.copyFails files 0
    rw [hc]
    simp only [Nat.sub_zero] at hc ⊢
    rw [show closeFrom files 0 =
      closeFrom (files.take (v1Loop o.createPartFails o.copyFails files 0).2.1 ++
        files.drop (v1Loop o.createPartFails o.copyFails files 0).2.1) 0 from by
      rw [List.take_append_drop]]
    rw [closeFrom_append]
    rw [List.length_take]
    rw [show min (v1Loop o.createPartFails o.copyFails files 0).2.1 files.length =
      (v1Loop o.createPartFails o.copyFails files 0).2.1 from by omega]
    rw [Nat.zero_add]

theorem closeFrom_mem_ge (files : List Bool) :
    ∀ m j, j ∈ closeFrom files m → m ≤ j := by
  induction files with
  | nil => intro m j h; exact absurd h (List.not_mem_nil j)
  | cons b rest ih =>
    intro m j h
    simp only [closeFrom, List.mem_append] at h
    rcases h with h | h
    · split at h
      · rcases List.mem_singleton.mp h with rfl
        exact le_refl j
      · exact absurd h (List.not_mem_nil j)
    · have := ih (m + 1) j h
      omega

theorem closeFrom_count (files : List Bool) :
    ∀ k i (h : i < files.length),
      (closeFrom files k).count (k + i) = if files.get ⟨i, h⟩ then 1 else 0 := by
  induction files with
  | nil => intro k i h; exact absurd h (by simp)
  | cons b rest ih =>
    intro k i h
    cases i with
    | zero =>
      simp only [closeFrom, List.count_append, Nat.add_zero, List.get]
      have hz : (closeFrom rest (k + 1)).count k = 0 := by
        rw [List.count_eq_zero]
        intro hmem
        have := closeFrom_mem_ge rest (k + 1) k hmem
        omega
      rw [hz]
      split
      · simp [List.count_cons]
      · simp
    | succ i' =>
      simp only [closeFrom, List.count_append, List.get]
      have hfirst : (if b then [k] else []).count (k + (i' + 1)) = 0 := by
        have hne : (k == k + (i' + 1)) = false := by
          simp only [beq_eq_false_iff_ne, ne_eq]
          omega
        split
        · simp [List.count_cons, hne]
        · simp
      rw [hfirst]
      have := ih (k + 1) i' (by simpa using Nat.lt_of_succ_lt_succ h)
      rw [show k + (i' + 1) = (k + 1) + i' by omega]
      rw [this]
      simp

/-- C3: in every run of either version of the writer goroutine — success,
payload failure, part-creation failure or copy failure at any file — each
file whose `Data` implements `io.Closer` is closed exactly once (including
files not yet reached when an earlier write failed), and files without a
closer are never closed. -/
theorem multibody_closes_each_file_once (files : List Bool) (o : MBOracle)
    (i : Nat) (h : i < files.length) :
    (v1Run files o).count i = (if files.get ⟨i, h⟩ then 1 else 0) ∧
    (v2Run files o).count i = (if files.get ⟨i, h⟩ then 1 else 0) := by
  have hc := closeFrom_count files 0 i h
  rw [Nat.zero_add] at hc
  exact ⟨by rw [v1Run_eq_closeFrom]; exact hc, hc⟩

/-- Witness for C3: three files (the middle one without a closer), the copy
of file 0 failing mid-stream. -/
theorem multibody_closes_each_file_once_witness :
    ((v1Run [true, false, true]
        { payloadPresent := true, payloadCreateFails := false,
          payloadEncodeFails := false, createPartFails := fun _ => false,
          copyFails := fun j => decide (j = 0) }).count 2 = 1 ∧
      (v2Run [true, false, true]
        { payloadPresent := true, payloadCreateFails := false,
          payloadEncodeFails := false, createPartFails := fun _ => false,
          copyFails := fun j => decide (j = 0) }).count 2 = 1) ∧
    ((v1Run [true, false, true]
        { payloadPresent := true, payloadCreateFails := false,
          payloadEncodeFails := false, createPartFails := fun _ => false,
          copyFails := fun j => decide (j = 0) }).count 1 = 0 ∧
      (v2Run [true, false, true]
        { payloadPresent := true, payloadCreateFails := false,
          payloadEncodeFails := false, createPartFails := fun _ => false,
          copyFails := fun j => decide (j = 0) }).count 1 = 0) :=
  ⟨multibody_closes_each_file_once [true, false, true] _ 2 (by decide),
   multibody_closes_each_file_once [true, false, true] _ 1 (by decide)⟩

/- ## Multipart composition (C2)

Model of the byte stream the `multiBody` writer goroutine produces on its
success path, and of a conformant `multipart.Reader`.

Go's `multipart.Writer` emits, for the first part, `--boundary CRLF`, for
each subsequent part `CRLF -- boundary CRLF`, then the part headers (keys in
sorted order, each `Key: value CRLF`), a blank line, and the part body;
`Close` writes `CRLF -- boundary -- CRLF`.  The reader splits the stream at
`CRLF -- boundary` delimiters, parsing each part's headers up to the blank
line.  `multiBody`'s boundary is random; it is a parameter here. -/

/-- One multipart part: its headers (in the emitted, sorted order) and raw
body. -/
structure Part where
  headers : List (List Char × List Char)
  body : List Char
deriving DecidableEq, Repr

/-- The fields of `UploadFile` used by `multiBody` (`Order` is unused
there; the closer aspect is C3's model). -/
structure UploadFile where
  contentType : List Char
  fileName : List Char
  id : List Char
  data : List Char
deriving DecidableEq, Repr

/-- Serialize header lines: `k: v CRLF` for each pair. -/
def serializeHeader : List (List Char × List Char) → List Char
  | [] => []
  | (k, v) :: t => k ++ ':' :: ' ' :: (v ++ '\r' :: '\n' :: serializeHeader t)

/-- Serialize one part: headers, blank line, body. -/
def serializePart (p : Part) : List Char :=
  serializeHeader p.headers ++ '\r' :: '\n' :: p.body

/-- The stream after the first part: each later part is preceded by
`CRLF--boundary CRLF`; the terminator is `CRLF--boundary--CRLF`. -/
def serializeTail (b : List Char) : List Part → List Char
  | [] => '\r' :: '\n' :: '-' :: '-' :: (b ++ '-' :: '-' :: '\r' :: '\n' :: [])
  | p :: ps => '\r' :: '\n' :: '-' :: '-' :: (b ++ '\r' :: '\n' ::
      (serializePart p ++ serializeTail b ps))

/-- The complete stream `multipart.Writer` produces for these parts. -/
def serializeParts (b : List Char) : List Part → List Char
  | [] => '\r' :: '\n' :: '-' :: '-' :: (b ++ '-' :: '-' :: '\r' :: '\n' :: [])
  | p :: ps => '-' :: '-' :: (b ++ '\r' :: '\n' ::
      (serializePart p ++ serializeTail b ps))

/-- The content-disposition value `multiBody` formats for a file:
`file; filename="<name>";documentid=<id>`. -/
def fileDisposition (f : UploadFile) : List Char :=
  "file; filename=\"".toList ++ f.fileName ++ "\";documentid=".toList ++ f.id

/-- The part list the `multiBody` writer emits: the JSON payload part first
(`json.NewEncoder` appends a newline to the encoded value), then one part
per file in order.  Header keys appear in the sorted order
`multipart.Writer.CreatePart` writes them in. -/
def multiBodyParts (payload : Option Json) (files : List UploadFile) : List Part :=
  (match payload with
   | some p =>
     [{ headers := [("Content-Disposition".toList, "form-data".toList),
                    ("Content-Type".toList, "application/json".toList)],
        body := encJson p ++ ['\n'] }]
   | none => []) ++
  files.map (fun f =>
    { headers := [("Content-Disposition".toList, fileDisposition f),
                  ("Content-Type".toList, f.contentType)],
      body := f.data })

/-- `multiBody` (docusign.go lines 478-529 / recipients.go lines 2437-2485)
on its success path: the streamed body and the returned content type. -/
def multiBody (boundary : List Char) (payload : Option Json)
    (files : List UploadFile) : List Char × List Char :=
  (serializeParts boundary (multiBodyParts payload files),
   "multipart/form-data; boundary=".toList ++ boundary)

/-- Split the input at the first occurrence of `d`, which is consumed. -/
def takeUntil (d : List Char) : List Char → Option (List Char × List Char)
  | [] => none
  | c :: cs =>
    if d.isPrefixOf (c :: cs) then some ([], (c :: cs).drop d.length)
    else (takeUntil d cs).map (fun p => (c :: p.1, p.2))

/-- Consume an exact literal from the front. -/
def stripPfx (p s : List Char) : Option (List Char) :=
  if p.isPrefixOf s then some (s.drop p.length) else none

/-- Parse header lines up to and including the blank line. -/
def parseMimeHeaders : Nat → List Char → Option (List (List Char × List Char) × List Char)
  | 0, _ => none
  | fuel + 1, s => do
    let (line, r) ← takeUntil ['\r', '\n'] s
    match line with
    | [] => some ([], r)
    | _ => do
      let (k, v) ← takeUntil [':', ' '] line
      let (hs, r2) ← parseMimeHeaders fuel r
      some ((k, v) :: hs, r2)

/-- Parse one part: headers, then the body up to the next delimiter. -/
def parseOnePart (delim : List Char) (s : List Char) : Option (Part × List Char) := do
  let (hs, r) ← parseMimeHeaders (s.length + 1) s
  let (body, r2) ← takeUntil delim r
  some ({ headers := hs, body := body }, r2)

/-- Parse the parts after the opening boundary line; after each delimiter a
`CRLF` continues with another part and `--CRLF` terminates. -/
def parsePartsLoop : Nat → List Char → List Char → Option (List Part × List Char)
  | 0, _, _ => none
  | fuel + 1, bndry, s => do
    let (p, r) ← parseOnePart ('\r' :: '\n' :: '-' :: '-' :: bndry) s
    match r with
    | '\r' :: '\n' :: r2 => (parsePartsLoop fuel bndry r2).map (fun q => (p :: q.1, q.2))
    | '-' :: '-' :: '\r' :: '\n' :: r2 => some ([p], r2)
    | _ => none

/-- A conformant multipart reader for a stream with at least one part:
`--boundary CRLF`, the parts, nothing after the closing delimiter. -/
def parseMultipart (bndry : List Char) (s : List Char) : Option (List Part) := do
  let r ← stripPfx ('-' :: '-' :: (bndry ++ ['\r', '\n'])) s
  let (ps, r2) ← parsePartsLoop (r.length + 1) bndry r
  if r2 = [] then some ps else none

/-- No occurrence of `d` starts strictly inside `body` (also none that
overlaps into the delimiter that follows `body` in the stream). -/
def noEarlyOcc (d body : List Char) : Bool :=
  (List.range body.length).all (fun i => !(d.isPrefixOf ((body ++ d).drop i)))

/- ### Multipart round-trip lemmas -/

theorem isPrefixOf_append_self (l t : List Char) : l.isPrefixOf (l ++ t) = true := by
  induction l with
  | nil => simp [List.isPrefixOf]
  | cons a as ih => simp [List.isPrefixOf, ih]

theorem isPrefixOf_append_of_le (d : List Char) :
    ∀ X rest : List Char, d.length ≤ X.length →
      d.isPrefixOf (X ++ rest) = d.isPrefixOf X := by
  induction d with
  | nil => intro X rest _; simp [List.isPrefixOf]
  | cons a as ih =>
    intro X rest h
    cases X with
    | nil => simp at h
    | cons x xs =>
      simp only [List.cons_append, List.isPrefixOf, List.append_eq]
      rw [ih xs rest (by simp at h; omega)]

theorem takeUntil_at_front (d rest : List Char) (hd : d ≠ []) :
    takeUntil d (d ++ rest) = some ([], rest) := by
  cases d with
  | nil => exact absurd rfl hd
  | cons c d' =>
    show takeUntil (c :: d') (c :: (d' ++ rest)) = some ([], rest)
    unfold takeUntil
    rw [show (c :: d').isPrefixOf (c :: (d' ++ rest)) = true from by
      simp [List.isPrefixOf, isPrefixOf_append_self]]
    rw [if_pos rfl]
    rw [show (c :: (d' ++ rest)).drop (c :: d').length = rest from by
      simp only [List.length_cons, List.drop_succ_cons]
      exact List.drop_left d' rest]

theorem takeUntil_excl (c0 : Char) (d' : List Char) (pre : List Char)
    (hpre : pre.all (fun c => !(c == c0)) = true) (rest : List Char) :
    takeUntil (c0 :: d') (pre ++ ((c0 :: d') ++ rest)) = some (pre, rest) := by
  induction pre with
  | nil =>
    rw [List.nil_append]
    exact takeUntil_at_front _ rest (by simp)
  | cons c pre' ih =>
    simp only [List.all_cons, Bool.and_eq_true, Bool.not_eq_true',
      beq_eq_false_iff_ne, ne_eq] at hpre
    rw [List.cons_append]
    unfold takeUntil
    rw [show (c0 :: d').isPrefixOf (c :: (pre' ++ ((c0 :: d') ++ rest))) = false from by
      simp only [List.isPrefixOf, Bool.and_eq_false_iff]
      left
      simp only [beq_eq_false_iff_ne, ne_eq]
      exact fun hh => hpre.1 hh.symm]
    rw [if_neg (by simp)]
    rw [ih hpre.2]
    rfl

theorem noEarlyOcc_iff (d body : List Char) :
    noEarlyOcc d body = true ↔
      ∀ i < body.length, d.isPrefixOf ((body ++ d).drop i) = false := by
  unfold noEarlyOcc
  rw [List.all_eq_true]
  constructor
  · intro h i hi
    have := h i (List.mem_range.mpr hi)
    simpa using this
  · intro h x hx
    have := h x (List.mem_range.mp hx)
    simpa using this

theorem takeUntil_noearly (d : List Char) (hd : d ≠ []) :
    ∀ body rest : List Char, noEarlyOcc d body = true →
      takeUntil d (body ++ (d ++ rest)) = some (body, rest) := by
  intro body
  induction body with
  | nil =>
    intro rest _
    rw [List.nil_append]
    exact takeUntil_at_front d rest hd
  | cons c body' ih =>
    intro rest h
    rw [noEarlyOcc_iff] at h
    rw [List.cons_append]
    unfold takeUntil
    rw [show d.isPrefixOf (c :: (body' ++ (d ++ rest))) = false from by
      have h0 := h 0 (by simp)
      rw [List.drop_zero] at h0
      rw [show c :: (body' ++ (d ++ rest)) = ((c :: body') ++ d) ++ rest from by
        simp [List.append_assoc]]
      rw [isPrefixOf_append_of_le d ((c :: body') ++ d) rest
        (by simp only [List.length_append]; omega)]
      exact h0]
    rw [if_neg (by simp)]
    rw [ih rest (by
      rw [noEarlyOcc_iff]
      intro i hi
      have := h (i + 1) (by simpa using Nat.succ_lt_succ hi)
      simpa using this)]
    rfl

theorem noChar_noEarlyOcc (d' body : List Char)
    (h : body.all (fun c => !(c == '\r')) = true) :
    noEarlyOcc ('\r' :: d') body = true := by
  rw [noEarlyOcc_iff]
  intro i hi
  rw [List.all_eq_true] at h
  have hlt : i < (body ++ '\r' :: d').length := by
    simp only [List.length_append]; omega
  rw [List.drop_eq_getElem_cons hlt]
  have hgi : (body ++ '\r' :: d')[i] = body[i] := List.getElem_append_left hi
  have hmem : body[i] ∈ body := by
    first
    | exact List.getElem_mem _ _ _
    | exact List.getElem_mem _
    | exact List.getElem_mem hi
  have hm := h _ hmem
  simp only [List.isPrefixOf, Bool.and_eq_false_iff]
  left
  rw [hgi]
  simp only [Bool.not_eq_true', beq_eq_false_iff_ne, ne_eq] at hm ⊢
  exact fun hh => hm hh.symm

/-- `l` contains no occurrence of the character `a`. -/
def noChar (a : Char) (l : List Char) : Bool := l.all (fun c => !(c == a))

theorem noChar_append (a : Char) (l1 l2 : List Char) :
    noChar a (l1 ++ l2) = (noChar a l1 && noChar a l2) := by
  simp [noChar]

/-- Header-line well-formedness under which the MIME serialization parses
back unambiguously: nonempty key, no colon in the key, no CR in key or
value.  Every header `multiBody` emits satisfies it (given CR-free file
names, ids and content types). -/
def hdrWF (kv : List Char × List Char) : Bool :=
  !kv.1.isEmpty && noChar ':' kv.1 && noChar '\r' kv.1 && noChar '\r' kv.2

/-- All header lines of a part are well-formed. -/
def hdrsWF (hs : List (List Char × List Char)) : Bool := hs.all hdrWF

theorem noChar_split (a : Char) (k v : List Char) (c1 c2 : Char)
    (h1 : noChar a k = true) (h2 : noChar a v = true)
    (hc1 : (c1 == a) = false) (hc2 : (c2 == a) = false) :
    (k ++ c1 :: c2 :: v).all (fun c => !(c == a)) = true := by
  simp only [noChar] at h1 h2
  simp [List.all_append, h1, h2, hc1, hc2]

theorem takeUntil_eq_excl (c0 : Char) (d' pre rest s : List Char)
    (hpre : pre.all (fun c => !(c == c0)) = true)
    (hs : s = pre ++ ((c0 :: d') ++ rest)) :
    takeUntil (c0 :: d') s = some (pre, rest) := by
  subst hs; exact takeUntil_excl c0 d' pre hpre rest

theorem takeUntil_eq_front (d rest s : List Char) (hd : d ≠ []) (hs : s = d ++ rest) :
    takeUntil d s = some ([], rest) := by
  subst hs; exact takeUntil_at_front d rest hd

theorem takeUntil_eq_noearly (d body rest s : List Char) (hd : d ≠ [])
    (h : noEarlyOcc d body = true) (hs : s = body ++ (d ++ rest)) :
    takeUntil d s = some (body, rest) := by
  subst hs; exact takeUntil_noearly d hd body rest h

theorem serializeHeader_len (hs : List (List Char × List Char)) :
    hs.length ≤ (serializeHeader hs).length := by
  induction hs with
  | nil => simp [serializeHeader]
  | cons kv t ih =>
    obtain ⟨k, v⟩ := kv
    simp only [serializeHeader, List.length_append, List.length_cons]
    omega

/-- Round trip for the header block: serialized well-formed headers followed
by the blank line parse back exactly, leaving the rest of the stream. -/
theorem parseMimeHeaders_rt (hs0 : List (List Char × List Char)) :
    ∀ rest fuel, hdrsWF hs0 = true → hs0.length < fuel →
      parseMimeHeaders fuel (serializeHeader hs0 ++ '\r' :: '\n' :: rest) =
        some (hs0, rest) := by
  induction hs0 with
  | nil =>
    intro rest fuel _ hfuel
    cases fuel with
    | zero => omega
    | succ f =>
      unfold parseMimeHeaders
      rw [takeUntil_eq_front ['\r', '\n'] rest _ (by simp) (by simp [serializeHeader])]
      rfl
  | cons kv t ih =>
    intro rest fuel hwf hfuel
    obtain ⟨k, v⟩ := kv
    cases fuel with
    | zero =>
      exact absurd hfuel (by omega)
    | succ f =>
      simp only [hdrsWF, List.all_cons, Bool.and_eq_true] at hwf
      obtain ⟨hkv, ht⟩ := hwf
      simp only [hdrWF, Bool.and_eq_true] at hkv
      obtain ⟨⟨⟨hk0, hkc⟩, hkr⟩, hvr⟩ := hkv
      cases k with
      | nil => simp at hk0
      | cons kh kt =>
        unfold parseMimeHeaders
        rw [takeUntil_eq_excl '\r' ['\n'] ((kh :: kt) ++ ':' :: ' ' :: v)
          (serializeHeader t ++ '\r' :: '\n' :: rest) _
          (noChar_split '\r' (kh :: kt) v ':' ' ' hkr hvr (by decide) (by decide))
          (by simp [serializeHeader, List.append_assoc])]
        show (do
          let (k', v') ← takeUntil [':', ' '] ((kh :: kt) ++ ':' :: ' ' :: v)
          let (hs2, r2) ← parseMimeHeaders f (serializeHeader t ++ '\r' :: '\n' :: rest)
          some ((k', v') :: hs2, r2) :
            Option (List (List Char × List Char) × List Char)) =
          some ((kh :: kt, v) :: t, rest)
        rw [takeUntil_eq_excl ':' [' '] (kh :: kt) v ((kh :: kt) ++ ':' :: ' ' :: v) hkc rfl]
        show (do
          let (hs2, r2) ← parseMimeHeaders f (serializeHeader t ++ '\r' :: '\n' :: rest)
          some ((kh :: kt, v) :: hs2, r2) :
            Option (List (List Char × List Char) × List Char)) =
          some ((kh :: kt, v) :: t, rest)
        rw [ih rest f ht (by simp only [List.length_cons] at hfuel; omega)]
        rfl

/-- Round trip for one part: serialized headers, blank line and body,
followed by the delimiter, parse back to the part and the stream after the
delimiter. -/
theorem parseOnePart_rt (delim : List Char) (hd : delim ≠ [])
    (hs0 : List (List Char × List Char)) (body after s : List Char)
    (hwf : hdrsWF hs0 = true) (hb : noEarlyOcc delim body = true)
    (hstream : s = serializeHeader hs0 ++ '\r' :: '\n' :: (body ++ (delim ++ after))) :
    parseOnePart delim s = some (⟨hs0, body⟩, after) := by
  subst hstream
  unfold parseOnePart
  rw [parseMimeHeaders_rt hs0 (body ++ (delim ++ after)) _ hwf
    (by
      have := serializeHeader_len hs0
      simp only [List.length_append, List.length_cons]
      omega)]
  show (do
    let (body', r2) ← takeUntil delim (body ++ (delim ++ after))
    some (({ headers := hs0, body := body' } : Part), r2) :
      Option (Part × List Char)) = some (⟨hs0, body⟩, after)
  rw [takeUntil_eq_noearly delim body after (body ++ (delim ++ after)) hd hb rfl]
  rfl

theorem serializeTail_len (b : List Char) (ps : List Part) :
    ps.length ≤ (serializeTail b ps).length := by
  induction ps with
  | nil => simp [serializeTail]
  | cons p ps2 ih =>
    simp only [serializeTail, List.length_append, List.length_cons]
    omega

/-- Round trip for the part loop: the serialization of a nonempty list of
well-formed parts (from the first part's headers on) parses back to exactly
those parts with nothing left over. -/
theorem parsePartsLoop_rt (b : List Char) :
    ∀ (ps : List Part) (p : Part) (fuel : Nat), ps.length < fuel →
      hdrsWF p.headers = true →
      noEarlyOcc ('\r' :: '\n' :: '-' :: '-' :: b) p.body = true →
      (∀ q ∈ ps, hdrsWF q.headers = true ∧
        noEarlyOcc ('\r' :: '\n' :: '-' :: '-' :: b) q.body = true) →
      parsePartsLoop fuel b (serializePart p ++ serializeTail b ps) =
        some (p :: ps, []) := by
  intro ps
  induction ps with
  | nil =>
    intro p fuel hfuel hwf hb _
    cases fuel with
    | zero => exact absurd hfuel (by omega)
    | succ f =>
      unfold parsePartsLoop
      rw [parseOnePart_rt ('\r' :: '\n' :: '-' :: '-' :: b) (by simp)
        p.headers p.body ('-' :: '-' :: '\r' :: '\n' :: [])
        (serializePart p ++ serializeTail b []) hwf hb
        (by simp [serializePart, serializeTail, List.append_assoc])]
      rfl
  | cons p2 ps2 ih =>
    intro p fuel hfuel hwf hb hq
    cases fuel with
    | zero => exact absurd hfuel (by omega)
    | succ f =>
      unfold parsePartsLoop
      rw [parseOnePart_rt ('\r' :: '\n' :: '-' :: '-' :: b) (by simp)
        p.headers p.body ('\r' :: '\n' :: (serializePart p2 ++ serializeTail b ps2))
        (serializePart p ++ serializeTail b (p2 :: ps2)) hwf hb
        (by simp [serializePart, serializeTail, List.append_assoc])]
      show (parsePartsLoop f b (serializePart p2 ++ serializeTail b ps2)).map
          (fun q => ((⟨p.headers, p.body⟩ : Part) :: q.1, q.2)) =
        some (p :: p2 :: ps2, [])
      rw [ih p2 f (by simp only [List.length_cons] at hfuel; omega)
        (hq p2 (List.mem_cons_self p2 ps2)).1
        (hq p2 (List.mem_cons_self p2 ps2)).2
        (fun q hmem => hq q (List.mem_cons_of_mem p2 hmem))]
      rfl

theorem stripPfx_append (pre x : List Char) : stripPfx pre (pre ++ x) = some x := by
  unfold stripPfx
  rw [isPrefixOf_append_self]
  rw [if_pos rfl]
  rw [List.drop_left]

/-- Round trip for the whole stream: the full `multipart.Writer` output for
a nonempty list of well-formed parts is parsed back to exactly those parts
by the conformant reader. -/
theorem parseMultipart_rt (b : List Char) (p : Part) (ps : List Part)
    (hwf : hdrsWF p.headers = true)
    (hb : noEarlyOcc ('\r' :: '\n' :: '-' :: '-' :: b) p.body = true)
    (hq : ∀ q ∈ ps, hdrsWF q.headers = true ∧
      noEarlyOcc ('\r' :: '\n' :: '-' :: '-' :: b) q.body = true) :
    parseMultipart b (serializeParts b (p :: ps)) = some (p :: ps) := by
  unfold parseMultipart
  rw [show serializeParts b (p :: ps) =
      ('-' :: '-' :: (b ++ ['\r', '\n'])) ++ (serializePart p ++ serializeTail b ps) from by
    simp [serializeParts, List.append_assoc]]
  rw [stripPfx_append]
  show (do
    let (ps', r2) ← parsePartsLoop ((serializePart p ++ serializeTail b ps).length + 1) b
      (serializePart p ++ serializeTail b ps)
    if r2 = [] then some ps' else none : Option (List Part)) = some (p :: ps)
  rw [parsePartsLoop_rt b ps p ((serializePart p ++ serializeTail b ps).length + 1)
    (by
      have := serializeTail_len b ps
      simp only [List.length_append]
      omega)
    hwf hb hq]
  rfl

/- ### The JSON encoder emits no carriage return

The delimiter the reader splits at starts with CR, so a CR-free part body
can never contain an early delimiter occurrence.  `encoding/json` escapes
CR inside strings (`\r` or `\u000d`) and writes none elsewhere. -/

theorem digit_not_cr (c : Char) (h : isDigitCh c = true) : (c == '\r') = false := by
  simp only [beq_eq_false_iff_ne, ne_eq]
  intro hc
  subst hc
  exact absurd h (by decide)

theorem natToChars_no_cr (n : Nat) : noChar '\r' (natToChars n) = true := by
  simp only [noChar, List.all_eq_true]
  intro c hc
  simp [digit_not_cr c (natToChars_all_digits n c hc)]

theorem hexChar_ne_cr (n : Nat) : (hexChar n == '\r') = false := by
  unfold hexChar
  split <;> decide

theorem escapeChar_no_cr (c : Char) : noChar '\r' (escapeChar c) = true := by
  unfold escapeChar
  split
  · decide
  split
  · decide
  split
  · decide
  split
  · decide
  split
  · decide
  split
  · have h1 := hexChar_ne_cr (c.toNat / 16)
    have h2 := hexChar_ne_cr (c.toNat % 16)
    simp [noChar, h1, h2]
  · rename_i h1 h2 h3 h4 h5 h6
    simp only [Bool.not_eq_true] at h4
    simp [noChar, h4]

theorem escStr_no_cr (s : List Char) : noChar '\r' (escStr s) = true := by
  induction s with
  | nil => decide
  | cons c cs ih =>
    show noChar '\r' (escapeChar c ++ escStr cs) = true
    rw [noChar_append, escapeChar_no_cr c, ih]
    rfl

theorem intToChars_no_cr (n : Int) : noChar '\r' (intToChars n) = true := by
  unfold intToChars
  split
  · show noChar '\r' ('-' :: natToChars n.natAbs) = true
    have h := natToChars_no_cr n.natAbs
    simp only [noChar, List.all_cons, Bool.and_eq_true] at h ⊢
    exact ⟨by decide, h⟩
  · exact natToChars_no_cr n.toNat

theorem enc_no_cr (m : Nat) :
    (∀ v, jsize v ≤ m → noChar '\r' (encJson v) = true) ∧
    (∀ es, jsizeL es ≤ m → noChar '\r' (encElems es) = true) ∧
    (∀ ms, jsizeM ms ≤ m → noChar '\r' (encMembers ms) = true) := by
  induction m using Nat.strong_induction_on with
  | _ m ih =>
  refine ⟨?_, ?_, ?_⟩
  · intro v hv
    cases v with
    | null => decide
    | jbool b => cases b <;> decide
    | jnum n => exact intToChars_no_cr n
    | jstr s =>
      show noChar '\r' ('"' :: (escStr s ++ ['"'])) = true
      have h := escStr_no_cr s
      simp only [noChar, List.all_cons, List.all_append, Bool.and_eq_true] at h ⊢
      exact ⟨by decide, h, by decide⟩
    | jarr es =>
      have hm : 1 ≤ m := le_trans (jsize_pos _) hv
      simp only [jsize] at hv
      have hL := (ih (m - 1) (by omega)).2.1 es (by omega)
      show noChar '\r' ('[' :: (encElems es ++ [']'])) = true
      simp only [noChar, List.all_cons, List.all_append, Bool.and_eq_true] at hL ⊢
      exact ⟨by decide, hL, by decide⟩
    | jobj ms =>
      have hm : 1 ≤ m := le_trans (jsize_pos _) hv
      simp only [jsize] at hv
      have hM := (ih (m - 1) (by omega)).2.2 ms (by omega)
      show noChar '\r' ('{' :: (encMembers ms ++ ['}'])) = true
      simp only [noChar, List.all_cons, List.all_append, Bool.and_eq_true] at hM ⊢
      exact ⟨by decide, hM, by decide⟩
  · intro es hes
    cases es with
    | nil => decide
    | cons v vs =>
      have hm : 1 ≤ m := le_trans (jsizeL_pos _) hes
      simp only [jsizeL] at hes
      have h1 := (ih (m - 1) (by omega)).1 v (by have := jsizeL_pos vs; omega)
      have h2 := (ih (m - 1) (by omega)).2.1 vs (by have := jsize_pos v; omega)
      cases vs with
      | nil => exact h1
      | cons v2 vs2 =>
        rw [show encElems (v :: v2 :: vs2) = encJson v ++ ',' :: encElems (v2 :: vs2)
          from rfl]
        simp only [noChar, List.all_append, List.all_cons, Bool.and_eq_true] at h1 h2 ⊢
        exact ⟨h1, by decide, h2⟩
  · intro ms hms
    cases ms with
    | nil => decide
    | cons kv ms' =>
      obtain ⟨k, v⟩ := kv
      have hm : 1 ≤ m := le_trans (jsizeM_pos _) hms
      simp only [jsizeM] at hms
      have h1 := (ih (m - 1) (by omega)).1 v (by have := jsizeM_pos ms'; omega)
      have hk := escStr_no_cr k
      cases ms' with
      | nil =>
        rw [show encMembers [(k, v)] = '"' :: escStr k ++ '"' :: ':' :: encJson v
          from rfl]
        simp only [noChar] at h1 hk ⊢
        simp [List.all_append, h1, hk]
      | cons m2 ms2 =>
        have h2 := (ih (m - 1) (by omega)).2.2 (m2 :: ms2) (by have := jsize_pos v; omega)
        rw [show encMembers ((k, v) :: m2 :: ms2) =
          ('"' :: escStr k ++ '"' :: ':' :: encJson v) ++ ',' :: encMembers (m2 :: ms2)
          from rfl]
        simp only [noChar] at h1 h2 hk ⊢
        simp [List.all_append, h1, h2, hk]

theorem encJson_no_cr (v : Json) : noChar '\r' (encJson v) = true :=
  (enc_no_cr (jsize v)).1 v (le_refl _)

theorem noChar_cons (a c : Char) (l : List Char) :
    noChar a (c :: l) = (!(c == a) && noChar a l) := by
  simp [noChar]

theorem fileDisposition_no_cr (f : UploadFile)
    (hfn : noChar '\r' f.fileName = true) (hid : noChar '\r' f.id = true) :
    noChar '\r' (fileDisposition f) = true := by
  simp [fileDisposition, noChar_cons, noChar_append, hfn, hid]

/-- C2: for every JSON payload `p` and every file list (with CR-free names,
ids and content types, and file bytes free of the delimiter), the stream
`multiBody` produces, parsed by a conformant multipart reader with the
returned boundary, yields exactly `files.length + 1` parts in order: first
the `application/json` part whose body JSON-decodes back to `p`, then one
part per file in order, with Content-Disposition exactly
`file; filename="<name>";documentid=<id>` and body exactly the file's
bytes; the returned content type carries the boundary. -/
theorem multibody_stream_roundtrip (boundary : List Char) (p : Json)
    (files : List UploadFile)
    (hfiles : ∀ f ∈ files,
      noChar '\r' f.contentType = true ∧ noChar '\r' f.fileName = true ∧
      noChar '\r' f.id = true ∧
      noEarlyOcc ('\r' :: '\n' :: '-' :: '-' :: boundary) f.data = true) :
    parseMultipart boundary (multiBody boundary (some p) files).1 =
      some (multiBodyParts (some p) files) ∧
    (multiBodyParts (some p) files).length = files.length + 1 ∧
    (multiBodyParts (some p) files).head? = some
      { headers := [("Content-Disposition".toList, "form-data".toList),
                    ("Content-Type".toList, "application/json".toList)],
        body := encJson p ++ ['\n'] } ∧
    jsonDecode (encJson p ++ ['\n']) = some p ∧
    (multiBodyParts (some p) files).tail = files.map (fun f =>
      { headers := [("Content-Disposition".toList, fileDisposition f),
                    ("Content-Type".toList, f.contentType)],
        body := f.data }) ∧
    (multiBody boundary (some p) files).2 =
      "multipart/form-data; boundary=".toList ++ boundary := by
  refine ⟨?_, ?_, rfl, jsonDecode_enc_newline p, rfl, rfl⟩
  · show parseMultipart boundary (serializeParts boundary
      (({ headers := [("Content-Disposition".toList, "form-data".toList),
                      ("Content-Type".toList, "application/json".toList)],
          body := encJson p ++ ['\n'] } : Part) ::
        files.map (fun f =>
          { headers := [("Content-Disposition".toList, fileDisposition f),
                        ("Content-Type".toList, f.contentType)],
            body := f.data }))) =
      some (({ headers := [("Content-Disposition".toList, "form-data".toList),
                           ("Content-Type".toList, "application/json".toList)],
               body := encJson p ++ ['\n'] } : Part) ::
        files.map (fun f =>
          { headers := [("Content-Disposition".toList, fileDisposition f),
                        ("Content-Type".toList, f.contentType)],
            body := f.data }))
    refine parseMultipart_rt boundary _ _ ?_ ?_ ?_
    · show hdrsWF [("Content-Disposition".toList, "form-data".toList),
        ("Content-Type".toList, "application/json".toList)] = true
      decide
    · have hnc : noChar '\r' (encJson p ++ ['\n']) = true := by
        rw [noChar_append, encJson_no_cr p]
        rfl
      exact noChar_noEarlyOcc ('\n' :: '-' :: '-' :: boundary) (encJson p ++ ['\n']) hnc
    · intro q hmem
      rw [List.mem_map] at hmem
      obtain ⟨f, hf, rfl⟩ := hmem
      obtain ⟨hct, hfn, hid, hdat⟩ := hfiles f hf
      refine ⟨?_, hdat⟩
      have hdisp := fileDisposition_no_cr f hfn hid
      simp [hdrsWF, hdrWF, hdisp, hct]
      decide
  · simp [multiBodyParts]

/-- Witness for C2: a single PDF file and a null JSON payload with a
concrete boundary. -/
theorem multibody_stream_roundtrip_witness :
    (∀ f ∈ [({ contentType := "application/pdf".toList, fileName := "r.pdf".toList,
               id := "1".toList, data := "DATA".toList } : UploadFile)],
      noChar '\r' f.contentType = true ∧ noChar '\r' f.fileName = true ∧
      noChar '\r' f.id = true ∧
      noEarlyOcc ('\r' :: '\n' :: '-' :: '-' :: "bnd7".toList) f.data = true) ∧
    parseMultipart "bnd7".toList
        (multiBody "bnd7".toList (some Json.null)
          [{ contentType := "application/pdf".toList, fileName := "r.pdf".toList,
             id := "1".toList, data := "DATA".toList }]).1 =
      some (multiBodyParts (some Json.null)
          [{ contentType := "application/pdf".toList, fileName := "r.pdf".toList,
             id := "1".toList, data := "DATA".toList }]) :=
  ⟨by decide,
   (multibody_stream_roundtrip "bnd7".toList Json.null
      [{ contentType := "application/pdf".toList, fileName := "r.pdf".toList,
         id := "1".toList, data := "DATA".toList }] (by decide)).1⟩

/- ## C9: Service.OnBehalfOf (recipients.go lines 2334-2353, v2)

Go source:
  type Service struct {
      credential Credential
      onBehalfOf string
  }
  func (s Service) OnBehalfOf(onBehalfOf string) *Service {
      s.onBehalfOf = onBehalfOf
      return &s
  }
The method has a value receiver: the caller's Service is copied, the copy's
field is assigned, and a pointer to the copy is returned. -/

/-- Model of `Service.OnBehalfOf`.  Go passes the receiver by value, so the
method operates on a copy; the pair returned is
(the fresh Service the returned pointer refers to,
 the caller's receiver value after the call). -/
def serviceOnBehalfOf (s : ServiceV2) (u : String) : ServiceV2 × ServiceV2 :=
  ({ s with onBehalfOf := u }, s)

/-- C9: `OnBehalfOf` returns a fresh Service whose credential is the
receiver's credential and whose on-behalf-of field is the argument, and the
receiver the method was invoked on is left unchanged (value-receiver copy). -/
theorem service_on_behalf_of_fresh_copy (s : ServiceV2) (u : String) :
    (serviceOnBehalfOf s u).1.credential = s.credential ∧
    (serviceOnBehalfOf s u).1.onBehalfOf = u ∧
    (serviceOnBehalfOf s u).2 = s :=
  ⟨rfl, rfl, rfl⟩

end DS
